import Mathlib

/-!
# stat-dir-watcher: the polling watcher of `src/index.js`

A shallow embedding of the class `StatDirWatcher`: its three containers
(`cachedStats`, `_newCachedStats`, `_unchangedPaths`), the augmentation
registry `addToNewCachedStat`, the recursive walk `_doStatThing` and the
diff-and-commit cycle `tick`.

Modelling conventions.

* The filesystem is what one walk observes of it: a finite tree `FsNode` giving,
  for every path the walk may query, the outcome of `lstat`, `readdir` and
  `readlink`.  Symbolic links are never followed, so the observation is a tree.
* `Promise.all(files.map(...))` is run in listing order and stops at the first
  child that throws.  The JavaScript original starts all children at once and
  lets the others run on after one has thrown, so what a failed walk leaves in
  `_newCachedStats` and `_unchangedPaths` there includes what it leaves here.
* An event listener is a function returning the `addToNewCachedStat` calls it
  makes.  The object passed to a call is given by the value it resolves to or the
  reason it rejects with.  The registered task reads its target record when the
  call is made and assigns onto that pending record, which nothing reads before
  it is committed; the write is therefore placed at the call.
* A record keeps what `_doStatThing` wrote apart from what augmentations assigned
  later.  An assigned property named `ctime`, `type`, `files`, ... replaces the
  property of that name, and the one reader of a record in the code, the test of
  line 117, reads `ctime` through the assigned properties.
* Numbers are integers, dates are valid.
* `emit` appends to a log.  A `change` entry also records the cache as the
  listener finds it when the event is emitted.
* The timer (`_timeout`, `ref`, `unref`, `stop`) and `lookupStat` are left out.
-/

namespace StatDir

/-! ## JavaScript values -/

/-- A thrown error; the watcher only ever reads `code`. -/
structure JsError where
  code : Option String
  message : String
  deriving DecidableEq, Repr

/-- The values a property assigned by an augmentation can hold here: `undefined`, `null`,
booleans, integral numbers and valid dates.  Strings and objects are left out. -/
inductive JsValue where
  | undefined
  | null
  | bool (b : Bool)
  | num (n : Int)
  | date (ms : Int)
  deriving DecidableEq, Repr

/-- The number a value is converted to when it is compared with a date; `none` is `NaN`. -/
def JsValue.toNumber : JsValue → Option Int
  | .undefined => none
  | .null => some 0
  | .bool b => some (if b then 1 else 0)
  | .num n => some n
  | .date ms => some ms

/-- Own enumerable properties of a plain object, in insertion order. -/
abbrev JsObject := List (String × JsValue)

/-- Assignment `o[k] = v` on an insertion-ordered association list: an existing key
keeps its position, a new key goes last. -/
def assocSet {α : Type} (k : String) (v : α) : List (String × α) → List (String × α)
  | [] => [(k, v)]
  | (k', v') :: rest => if k' = k then (k, v) :: rest else (k', v') :: assocSet k v rest

def assocGet {α : Type} (k : String) : List (String × α) → Option α
  | [] => none
  | (k', v') :: rest => if k' = k then some v' else assocGet k rest

/-- The call `Object.assign(target, source)` on the extra properties of a record. -/
def objectAssign (target source : JsObject) : JsObject :=
  source.foldl (fun t kv => assocSet kv.1 kv.2 t) target

/-- A JavaScript `Map` with string keys: entries in insertion order, keys distinct. -/
structure JsMap (α : Type) where
  entries : List (String × α)
  nodup : (entries.map Prod.fst).Nodup

namespace JsMap

variable {α : Type}

def empty : JsMap α := ⟨[], List.nodup_nil⟩

def get (m : JsMap α) (k : String) : Option α := assocGet k m.entries

def has (m : JsMap α) (k : String) : Bool := (m.get k).isSome

def keys (m : JsMap α) : List String := m.entries.map Prod.fst

def set (m : JsMap α) (k : String) (v : α) : JsMap α :=
  ⟨assocSet k v m.entries, by
    have key : ∀ l : List (String × α),
        (∀ x, x ∈ (assocSet k v l).map Prod.fst → x = k ∨ x ∈ l.map Prod.fst) ∧
        ((l.map Prod.fst).Nodup → ((assocSet k v l).map Prod.fst).Nodup) := by
      intro l
      induction l with
      | nil => simp [assocSet]
      | cons hd tl ih =>
        obtain ⟨k', v'⟩ := hd
        by_cases h : k' = k
        · subst h
          simp [assocSet]
        · refine ⟨?_, ?_⟩
          · intro x hx
            simp only [assocSet, h, if_false, List.map_cons, List.mem_cons] at hx ⊢
            rcases hx with hx | hx
            · exact Or.inr (Or.inl hx)
            · rcases ih.1 x hx with h1 | h1
              · exact Or.inl h1
              · exact Or.inr (Or.inr h1)
          · intro hnd
            simp only [assocSet, h, if_false, List.map_cons, List.nodup_cons] at hnd ⊢
            refine ⟨?_, ih.2 hnd.2⟩
            intro hmem
            rcases ih.1 k' hmem with h1 | h1
            · exact h h1
            · exact hnd.1 h1
    exact (key m.entries).2 m.nodup⟩

def delete (m : JsMap α) (k : String) : JsMap α :=
  ⟨m.entries.filter (fun e => decide (e.1 ≠ k)), by
    have hsub : List.Sublist ((m.entries.filter (fun e => decide (e.1 ≠ k))).map Prod.fst)
        (m.entries.map Prod.fst) := List.Sublist.map _ (List.filter_sublist _)
    exact List.Nodup.sublist hsub m.nodup⟩

end JsMap

/-! ## Stat records -/

/-- The fields of `fs.Stats` that `Object.assign(resultStat, stat)` copies. -/
structure Stats where
  dev : Nat
  ino : Nat
  mode : Nat
  nlink : Nat
  uid : Nat
  gid : Nat
  rdev : Nat
  size : Nat
  blksize : Nat
  blocks : Nat
  atimeMs : Int
  mtimeMs : Int
  ctimeMs : Int
  birthtimeMs : Int
  atime : Int
  mtime : Int
  ctime : Int
  birthtime : Int
  deriving DecidableEq, Repr

/-- The `type` property of a `DirWatcherStats`. -/
inductive StatType where
  | block | char | dir | pipe | file | socket | symlink
  deriving DecidableEq, Repr

/-- A `DirWatcherStats` record.  The first four fields are what `_doStatThing` wrote;
`extra` holds, in order, every property that `addToNewCachedStat` has assigned since.
`Object.assign` writes onto the record itself, so a property in `extra` named like one of
the properties written by `_doStatThing` has replaced it: a reader of the record finds the
value in `extra`. -/
structure DirWatcherStats where
  type : StatType
  stat : Stats
  files : Option (List String)
  destination : Option String
  extra : JsObject
  deriving DecidableEq, Repr

/-- The number that `record.ctime` converts to in a comparison: that of the assigned
property `ctime` when an augmentation assigned one, else the change time copied from
`fs.Stats`. -/
def DirWatcherStats.ctimeNumber (r : DirWatcherStats) : Option Int :=
  match assocGet "ctime" r.extra with
  | some v => v.toNumber
  | none => some r.stat.ctime

/-- Which of the `is*()` predicates of an `fs.Stats` holds, for an entry that is neither
a directory nor a symbolic link; `unknown` is the case in which none holds. -/
inductive EntryKind where
  | blockDevice | characterDevice | fifo | file | socket | unknown
  deriving DecidableEq, Repr

mutual
/-- What the walk observes at one path. -/
inductive FsNode where
  | lstatFails (ex : JsError)
  | entry (kind : EntryKind) (stat : Stats)
  | symlink (stat : Stats) (readlink : Except JsError String)
  | directoryUnreadable (stat : Stats) (ex : JsError)
  | directory (stat : Stats) (children : FsList)
/-- The listing `readdir` returns, each name with what the walk observes below it. -/
inductive FsList where
  | nil
  | cons (name : String) (node : FsNode) (rest : FsList)
end

def FsList.names : FsList → List String
  | .nil => []
  | .cons name _ rest => name :: rest.names

/-! ## The watcher -/

structure StatDirWatcherOptions where
  persistent : Option Bool
  recursive : Option Bool
  interval : Option Nat

structure PreChangeEvent where
  path : String
  old : Option DirWatcherStats
  deriving DecidableEq, Repr

/-- One `change` emission, with the cache contents at the moment of the call. -/
structure ChangeEvent where
  path : String
  old : Option DirWatcherStats
  new : Option DirWatcherStats
  cacheAtEmit : JsMap DirWatcherStats

/-- The three arguments a `change` listener receives. -/
def ChangeEvent.args (e : ChangeEvent) :
    String × Option DirWatcherStats × Option DirWatcherStats :=
  (e.path, e.old, e.new)

structure StatDirWatcher where
  cachedStats : JsMap DirWatcherStats
  _newCachedStats : JsMap DirWatcherStats
  _unchangedPaths : List String
  /-- Settled state of each registered task. -/
  _externalStatPropertyPromises : List (Except JsError Unit)
  _dir : String
  _recursive : Bool
  _initialized : Bool
  _ticking : Bool
  preChangeLog : List PreChangeEvent
  changeLog : List ChangeEvent
  warnings : List JsError

/-- The object handed to `addToNewCachedStat`: resolved value or rejection reason. -/
abbrev Augment := Except JsError JsObject

/-- The `preChange` listeners: the `addToNewCachedStat` calls they make, in order. -/
abbrev Listener := StatDirWatcher → String → Option DirWatcherStats → List (String × Augment)

/-- A walk step: the state it leaves and the exception it throws, if any. -/
structure Outcome where
  state : StatDirWatcher
  thrown : Option JsError

def sep : String := "/"

namespace StatDirWatcher

/-- The constructor (lines 41-69); `dir` is the result of `path.resolve`. -/
def construct (dir : String) (options : StatDirWatcherOptions) : StatDirWatcher :=
  { cachedStats := JsMap.empty
    _newCachedStats := JsMap.empty
    _unchangedPaths := []
    _externalStatPropertyPromises := []
    _dir := dir
    _recursive := options.recursive.getD false
    _initialized := false
    _ticking := false
    preChangeLog := []
    changeLog := []
    warnings := [] }

def usageError : JsError :=
  ⟨none, "You should only call this function in a preChange event"⟩

/-- What `Object.assign(undefined, ...)` throws. -/
def assignTypeError : JsError :=
  ⟨none, "Cannot convert undefined or null to object"⟩

/-- Method `addToNewCachedStat` (lines 81-88).  The pushed task holds the record found
under `path` when the call is made; it rejects when `obj` rejects or when there is no
such record, and otherwise assigns the properties of `obj` onto that record, replacing
properties of the same name. -/
def addToNewCachedStat (w : StatDirWatcher) (path : String) (obj : Augment) :
    Except JsError StatDirWatcher :=
  if !w._ticking then
    .error usageError
  else
    match w._newCachedStats.get path, obj with
    | _, .error ex =>
      .ok { w with _externalStatPropertyPromises := w._externalStatPropertyPromises ++ [.error ex] }
    | none, .ok _ =>
      .ok { w with
        _externalStatPropertyPromises := w._externalStatPropertyPromises ++ [.error assignTypeError] }
    | some target, .ok fields =>
      .ok { w with
        _newCachedStats :=
          w._newCachedStats.set path { target with extra := objectAssign target.extra fields }
        _externalStatPropertyPromises := w._externalStatPropertyPromises ++ [.ok ()] }

/-- The listener's calls, one after the other; a call that throws ends the listener. -/
def runCalls (w : StatDirWatcher) : List (String × Augment) → Outcome
  | [] => ⟨w, none⟩
  | (path, obj) :: rest =>
    match addToNewCachedStat w path obj with
    | .error ex => ⟨w, some ex⟩
    | .ok w' => runCalls w' rest

/-- The call `this.emit("preChange", filePath, oldResultStat)`. -/
def emitPreChange (L : Listener) (w : StatDirWatcher) (filePath : String)
    (old : Option DirWatcherStats) : Outcome :=
  let w1 := { w with preChangeLog := w.preChangeLog ++ [⟨filePath, old⟩] }
  runCalls w1 (L w1 filePath old)

/-- The `catch` clause of `_doStatThing` (lines 141-145). -/
def catchStat (w : StatDirWatcher) (ex : JsError) : Outcome :=
  if ex.code ≠ some "ENOENT" ∧ ex.code ≠ some "EACCES" then ⟨w, some ex⟩ else ⟨w, none⟩

def tryCatch (o : Outcome) : Outcome :=
  match o.thrown with
  | none => o
  | some ex => catchStat o.state ex

/-- The test of line 117: `oldResultStat != null && oldResultStat.ctime >= stat.ctime`. -/
def isUnchanged (old : Option DirWatcherStats) (stat : Stats) : Bool :=
  match old with
  | none => false
  | some o =>
    match o.ctimeNumber with
    | none => false
    | some n => decide (n ≥ stat.ctime)

/-- Lines 117-140, once `lstat` (and for a directory the listing) succeeded: `typed` is
the outcome of building the record, which fails if `readlink` fails or no type applies. -/
def afterLstat (L : Listener) (w : StatDirWatcher) (filePath : String)
    (old : Option DirWatcherStats) (stat : Stats) (typed : Except JsError DirWatcherStats) :
    Outcome :=
  if isUnchanged old stat then
    ⟨{ w with _unchangedPaths :=
        if filePath ∈ w._unchangedPaths then w._unchangedPaths
        else w._unchangedPaths ++ [filePath] }, none⟩
  else
    match typed with
    | .error ex => ⟨w, some ex⟩
    | .ok resultStat =>
      emitPreChange L { w with _newCachedStats := w._newCachedStats.set filePath resultStat }
        filePath old

/-- What line 137 throws. -/
def untypedError : JsError := ⟨none, "this shouldn't happen"⟩

/-- Lines 122-138 for an entry that is neither a directory nor a symbolic link. -/
def typeEntry (kind : EntryKind) (stat : Stats) : Except JsError DirWatcherStats :=
  match kind with
  | .blockDevice => .ok ⟨.block, stat, none, none, []⟩
  | .characterDevice => .ok ⟨.char, stat, none, none, []⟩
  | .fifo => .ok ⟨.pipe, stat, none, none, []⟩
  | .file => .ok ⟨.file, stat, none, none, []⟩
  | .socket => .ok ⟨.socket, stat, none, none, []⟩
  | .unknown => .error untypedError

def typeSymlink (stat : Stats) (readlink : Except JsError String) :
    Except JsError DirWatcherStats :=
  match readlink with
  | .error ex => .error ex
  | .ok destination => .ok ⟨.symlink, stat, none, some destination, []⟩

mutual
/-- Method `_doStatThing` (lines 101-146). -/
def doStatThing (L : Listener) (w : StatDirWatcher) (filePath : String) (recurse : Bool) :
    FsNode → Outcome
  | .lstatFails ex => catchStat w ex
  | .entry kind stat =>
    tryCatch (afterLstat L w filePath (w.cachedStats.get filePath) stat (typeEntry kind stat))
  | .symlink stat readlink =>
    tryCatch
      (afterLstat L w filePath (w.cachedStats.get filePath) stat (typeSymlink stat readlink))
  | .directoryUnreadable _ ex => catchStat w ex
  | .directory stat children =>
    let o := if recurse then statChildren L w filePath children else ⟨w, none⟩
    match o.thrown with
    | some ex => catchStat o.state ex
    | none =>
      tryCatch (afterLstat L o.state filePath (w.cachedStats.get filePath) stat
        (.ok ⟨.dir, stat, some children.names, none, []⟩))
/-- The `Promise.all` of lines 111-114 over the listing. -/
def statChildren (L : Listener) (w : StatDirWatcher) (filePath : String) : FsList → Outcome
  | .nil => ⟨w, none⟩
  | .cons name node rest =>
    let o := doStatThing L w (filePath ++ sep ++ name) w._recursive node
    match o.thrown with
    | some ex => ⟨o.state, some ex⟩
    | none => statChildren L o.state filePath rest
end

/-- The rejection `await Promise.all(promises)` throws, if any. -/
def awaitAll : List (Except JsError Unit) → Option JsError
  | [] => none
  | .error ex :: _ => some ex
  | .ok _ :: rest => awaitAll rest

/-- The first `forEach` of `tick` (lines 160-166), over the pending entries. -/
def installLoop (initialized : Bool) :
    List (String × DirWatcherStats) → JsMap DirWatcherStats → List ChangeEvent →
    JsMap DirWatcherStats × List ChangeEvent
  | [], cache, log => (cache, log)
  | (filePath, resultStat) :: rest, cache, log =>
    let oldResultStat := cache.get filePath
    let cache1 := cache.set filePath resultStat
    let log1 :=
      if initialized then log ++ [⟨filePath, oldResultStat, some resultStat, cache1⟩] else log
    installLoop initialized rest cache1 log1

/-- The second `forEach` of `tick` (lines 167-172), over the cache entries. -/
def removalLoop (unchanged : List String) (pending : JsMap DirWatcherStats) :
    List (String × DirWatcherStats) → JsMap DirWatcherStats → List ChangeEvent →
    JsMap DirWatcherStats × List ChangeEvent
  | [], cache, log => (cache, log)
  | (filePath, oldResultStat) :: rest, cache, log =>
    if !(decide (filePath ∈ unchanged)) && !(pending.has filePath) then
      let cache1 := cache.delete filePath
      removalLoop unchanged pending rest cache1
        (log ++ [⟨filePath, some oldResultStat, none, cache1⟩])
    else
      removalLoop unchanged pending rest cache log

/-- The `change` events one commit emits, in order. -/
def commitEvents (w : StatDirWatcher) : List ChangeEvent :=
  let installed := installLoop w._initialized w._newCachedStats.entries w.cachedStats []
  (removalLoop w._unchangedPaths w._newCachedStats installed.1.entries installed.1
    installed.2).2

/-- The cache one commit leaves. -/
def commitCache (w : StatDirWatcher) : JsMap DirWatcherStats :=
  let installed := installLoop w._initialized w._newCachedStats.entries w.cachedStats []
  (removalLoop w._unchangedPaths w._newCachedStats installed.1.entries installed.1
    installed.2).1

/-- Lines 160-175 of `tick`. -/
def commit (w : StatDirWatcher) : StatDirWatcher :=
  { w with
    cachedStats := commitCache w
    changeLog := w.changeLog ++ commitEvents w
    _newCachedStats := JsMap.empty
    _unchangedPaths := []
    _initialized := true }

/-- The `catch` clause of `tick` (line 177). -/
def warn (w : StatDirWatcher) (ex : JsError) : StatDirWatcher :=
  { w with warnings := w.warnings ++ [ex] }

/-- Lines 154-155 of `tick`. -/
def startWalk (w : StatDirWatcher) : StatDirWatcher :=
  { w with _externalStatPropertyPromises := [], _ticking := true }

/-- Lines 154-159 of `tick`: the walk and the wait for the registered tasks. -/
def walkPhase (L : Listener) (w : StatDirWatcher) (fs : FsNode) : Outcome :=
  let o := doStatThing L (startWalk w) w._dir true fs
  match o.thrown with
  | some ex => ⟨o.state, some ex⟩
  | none =>
    let w2 := { o.state with _ticking := false }
    match awaitAll w2._externalStatPropertyPromises with
    | some ex => ⟨w2, some ex⟩
    | none => ⟨{ w2 with _externalStatPropertyPromises := [] }, none⟩

/-- Method `tick` (lines 150-183) on the tree `fs`. -/
def tick (L : Listener) (w : StatDirWatcher) (fs : FsNode) : StatDirWatcher :=
  let o := walkPhase L w fs
  match o.thrown with
  | some ex => warn o.state ex
  | none => commit o.state


/-- The `change` events one tick emits, in order: none when the tick ends in its `catch`. -/
def tickEvents (L : Listener) (w : StatDirWatcher) (fs : FsNode) : List ChangeEvent :=
  match (walkPhase L w fs).thrown with
  | some _ => []
  | none => commitEvents (walkPhase L w fs).state

/-- The pending generation as the commit of a tick finds it. -/
def pendingAtCommit (L : Listener) (w : StatDirWatcher) (fs : FsNode) : JsMap DirWatcherStats :=
  (walkPhase L w fs).state._newCachedStats

/-- Claim C9 as written: whenever a `change` event of a tick is emitted, the cache holds
the new record of every path of that tick's pending generation. -/
def AllCommittedAtEveryEvent (L : Listener) (w : StatDirWatcher) (fs : FsNode) : Prop :=
  ∀ e ∈ tickEvents L w fs, ∀ kv ∈ (pendingAtCommit L w fs).entries,
    e.cacheAtEmit.get kv.1 = some kv.2

/-- What a `change` listener is sure to find in the cache: for the event of an installed
record, the records of the pending entries up to and including its own; for the event of
a removal, the records of all pending entries. -/
def SeesCommitted (pending : List (String × DirWatcherStats)) (e : ChangeEvent) : Prop :=
  (∀ r, e.new = some r →
    ∃ pre post, pending = pre ++ (e.path, r) :: post ∧
      ∀ kv ∈ pre ++ [(e.path, r)], e.cacheAtEmit.get kv.1 = some kv.2) ∧
  (e.new = none → ∀ kv ∈ pending, e.cacheAtEmit.get kv.1 = some kv.2)

/-- No record of the map has had a property named `k` assigned by an augmentation. -/
def Unassigned (k : String) (m : JsMap DirWatcherStats) : Prop :=
  ∀ p r, m.get p = some r → assocGet k r.extra = none

/-- The listener never passes an object with a property named `k`. -/
def spares (L : Listener) (k : String) : Prop :=
  ∀ w p old c fields, c ∈ L w p old → c.2 = .ok fields → assocGet k fields = none

/-- The part of the state that the walk never writes. -/
def fixedPart (w : StatDirWatcher) :=
  (w.cachedStats, w._dir, w._recursive, w._initialized, w.changeLog, w.warnings, w._ticking)

/-- The part of the state that lines 154-159 of `tick` never write. -/
def keptPart (w : StatDirWatcher) :=
  (w.cachedStats, w._dir, w._recursive, w._initialized, w.changeLog, w.warnings)

end StatDirWatcher

/-! ## The tree, as the claims speak of it -/

/-- An error with a code other than `ENOENT` and `EACCES`. -/
def JsError.isFatal (ex : JsError) : Prop :=
  ex.code ≠ some "ENOENT" ∧ ex.code ≠ some "EACCES"

instance (ex : JsError) : Decidable ex.isFatal := by
  unfold JsError.isFatal
  exact inferInstance

/-- An error with code `ENOENT` or `EACCES`. -/
def JsError.isAbsence (ex : JsError) : Prop :=
  ex.code = some "ENOENT" ∨ ex.code = some "EACCES"

/-- The visit of `path` reaches an `lstat`, `readdir` or `readlink` on that very path that
fails with code `ENOENT` or `EACCES`; `readlink` is reached only past the test of line 117. -/
def FsNode.failsSoftly (cache : JsMap DirWatcherStats) (path : String) : FsNode → Prop
  | .lstatFails ex => ex.isAbsence
  | .directoryUnreadable _ ex => ex.isAbsence
  | .symlink stat (.error ex) =>
    StatDirWatcher.isUnchanged (cache.get path) stat = false ∧ ex.isAbsence
  | _ => False

def FsList.append : FsList → FsList → FsList
  | .nil, ys => ys
  | .cons name node rest, ys => .cons name node (rest.append ys)

mutual
/-- Some filesystem call that the walk makes from `path` fails with a code other than
`ENOENT` and `EACCES`. -/
def FsNode.hasFatalCall (cache : JsMap DirWatcherStats) (r : Bool) (path : String)
    (recurse : Bool) : FsNode → Bool
  | .lstatFails ex => decide ex.isFatal
  | .entry _ _ => false
  | .symlink stat (.error ex) =>
    !(StatDirWatcher.isUnchanged (cache.get path) stat) && decide ex.isFatal
  | .symlink _ (.ok _) => false
  | .directoryUnreadable _ ex => decide ex.isFatal
  | .directory _ children => recurse && children.hasFatalCall cache r path
def FsList.hasFatalCall (cache : JsMap DirWatcherStats) (r : Bool) (dirPath : String) :
    FsList → Bool
  | .nil => false
  | .cons name node rest =>
    node.hasFatalCall cache r (dirPath ++ sep ++ name) r || rest.hasFatalCall cache r dirPath
end

mutual
/-- The errors, in walk order, of the filesystem calls that the walk makes from `path` and
that fail with a code other than `ENOENT` and `EACCES`. -/
def FsNode.fatalErrors (cache : JsMap DirWatcherStats) (r : Bool) (path : String)
    (recurse : Bool) : FsNode → List JsError
  | .lstatFails ex => if ex.isFatal then [ex] else []
  | .entry _ _ => []
  | .symlink stat (.error ex) =>
    if StatDirWatcher.isUnchanged (cache.get path) stat = false ∧ ex.isFatal then [ex] else []
  | .symlink _ (.ok _) => []
  | .directoryUnreadable _ ex => if ex.isFatal then [ex] else []
  | .directory _ children => if recurse then children.fatalErrors cache r path else []
def FsList.fatalErrors (cache : JsMap DirWatcherStats) (r : Bool) (dirPath : String) :
    FsList → List JsError
  | .nil => []
  | .cons name node rest =>
    node.fatalErrors cache r (dirPath ++ sep ++ name) r ++ rest.fatalErrors cache r dirPath
end

mutual
/-- No `lstat`, `readdir` or `readlink` that the first walk of a watcher makes from this
entry fails; `r` is the watcher's `_recursive` and `recurse` the argument of the visit. -/
def FsNode.callsSucceed (r : Bool) (recurse : Bool) : FsNode → Bool
  | .lstatFails _ => false
  | .entry _ _ => true
  | .symlink _ (.ok _) => true
  | .symlink _ (.error _) => false
  | .directoryUnreadable _ _ => false
  | .directory _ children => !recurse || children.callsSucceed r
def FsList.callsSucceed (r : Bool) : FsList → Bool
  | .nil => true
  | .cons _ node rest => node.callsSucceed r r && rest.callsSucceed r
end

mutual
/-- Every entry the walk visits satisfies one of the seven `is*()` predicates of
`fs.Stats`. -/
def FsNode.kindsKnown (r : Bool) (recurse : Bool) : FsNode → Bool
  | .lstatFails _ => true
  | .entry kind _ => decide (kind ≠ .unknown)
  | .symlink _ _ => true
  | .directoryUnreadable _ _ => true
  | .directory _ children => !recurse || children.kindsKnown r
def FsList.kindsKnown (r : Bool) : FsList → Bool
  | .nil => true
  | .cons _ node rest => node.kindsKnown r r && rest.kindsKnown r
end

mutual
/-- Every visit of the walk ends without a new record: a failing call fails with `ENOENT`
or `EACCES`, and `K` holds of the path and the `lstat` result of every other entry, or
else the entry is a symbolic link whose `readlink` fails with `ENOENT` or `EACCES`. -/
def FsNode.settled (K : String → Stats → Prop) (r : Bool) (path : String) (recurse : Bool) :
    FsNode → Prop
  | .lstatFails ex => ex.isAbsence
  | .entry _ stat => K path stat
  | .symlink stat (.ok _) => K path stat
  | .symlink stat (.error ex) => K path stat ∨ ex.isAbsence
  | .directoryUnreadable _ ex => ex.isAbsence
  | .directory stat children => (recurse = true → children.settled K r path) ∧ K path stat
def FsList.settled (K : String → Stats → Prop) (r : Bool) (dirPath : String) :
    FsList → Prop
  | .nil => True
  | .cons name node rest =>
    node.settled K r (dirPath ++ sep ++ name) r ∧ rest.settled K r dirPath
end

mutual
/-- The path `q` is that of a visited entry of which `K` holds. -/
def FsNode.marked (K : String → Stats → Prop) (r : Bool) (path : String) (recurse : Bool)
    (q : String) : FsNode → Prop
  | .lstatFails _ => False
  | .entry _ stat => q = path ∧ K path stat
  | .symlink stat _ => q = path ∧ K path stat
  | .directoryUnreadable _ _ => False
  | .directory stat children =>
    (recurse = true ∧ children.marked K r path q) ∨ (q = path ∧ K path stat)
def FsList.marked (K : String → Stats → Prop) (r : Bool) (dirPath : String) (q : String) :
    FsList → Prop
  | .nil => False
  | .cons name node rest =>
    node.marked K r (dirPath ++ sep ++ name) r q ∨ rest.marked K r dirPath q
end

/-- What the state `s` of a walk against the cache `cache` holds for a path whose `lstat`
gave `stat`: a pending record at least as recent, or else the path among the unchanged
ones with a cached record at least as recent. -/
def known (cache : JsMap DirWatcherStats) (s : StatDirWatcher) (p : String) (stat : Stats) :
    Prop :=
  match s._newCachedStats.get p with
  | some r => r.stat.ctime ≥ stat.ctime
  | none => p ∈ s._unchangedPaths ∧ StatDirWatcher.isUnchanged (cache.get p) stat = true

/-- The record cached for `p`, if any, is at least as recent as `stat`: the test of line
117 succeeds. -/
def upToDate (cache : JsMap DirWatcherStats) (p : String) (stat : Stats) : Prop :=
  StatDirWatcher.isUnchanged (cache.get p) stat = true

/-- The listing as a list of names, each with what the walk observes below it. -/
def FsList.toList : FsList → List (String × FsNode)
  | .nil => []
  | .cons name node rest => (name, node) :: rest.toList

/-- A record without the properties that `addToNewCachedStat` adds. -/
def DirWatcherStats.core (r : DirWatcherStats) :
    StatType × Stats × Option (List String) × Option String :=
  (r.type, r.stat, r.files, r.destination)

mutual
/-- The path of an entry and of all its descendants. -/
def FsNode.allPaths (path : String) : FsNode → List String
  | .directory _ children => path :: children.allPaths path
  | _ => [path]
def FsList.allPaths (dirPath : String) : FsList → List String
  | .nil => []
  | .cons name node rest => node.allPaths (dirPath ++ sep ++ name) ++ rest.allPaths dirPath
end

/-- The paths of the immediate children of an entry. -/
def FsNode.childPaths (path : String) : FsNode → List String
  | .directory _ children => children.names.map (fun name => path ++ sep ++ name)
  | _ => []

/-- The entries reachable under the recursion policy: the root and its immediate
children, or the root and all its descendants. -/
def reachablePaths (recursive : Bool) (root : String) (fs : FsNode) : List String :=
  if recursive then fs.allPaths root else root :: fs.childPaths root

/-- Claim C5 as written: after the first tick over a tree on which no filesystem call
fails, the cached paths are exactly those reachable under the recursion policy. -/
def CachesReachableAfterFirstTick (L : Listener) (dir : String)
    (options : StatDirWatcherOptions) (fs : FsNode) : Prop :=
  fs.callsSucceed (options.recursive.getD false) true = true →
    ∀ p, (StatDirWatcher.tick L (StatDirWatcher.construct dir options) fs).cachedStats.has p
        = true ↔ p ∈ reachablePaths (options.recursive.getD false) dir fs

mutual
/-- The paths `_doStatThing` calls `lstat` on, for a watcher whose `_recursive` is `r`. -/
def FsNode.walked (r : Bool) (path : String) (recurse : Bool) : FsNode → List String
  | .directory _ children => path :: (if recurse then children.walked r path else [])
  | _ => [path]
def FsList.walked (r : Bool) (dirPath : String) : FsList → List String
  | .nil => []
  | .cons name node rest => node.walked r (dirPath ++ sep ++ name) r ++ rest.walked r dirPath
end

/-! ## Sample runs

Trees under the root `/r` and the watcher states that successive ticks over them reach. -/

def statAt (ctime : Int) : Stats :=
  ⟨1, 1, 0, 1, 0, 0, 0, 0, 4096, 0, ctime, ctime, ctime, ctime, ctime, ctime, ctime, ctime⟩

def fileAt (ctime : Int) : FsNode := .entry .file (statAt ctime)

def fileRecord (ctime : Int) : DirWatcherStats := ⟨.file, statAt ctime, none, none, []⟩

def dirRecord (ctime : Int) (files : List String) : DirWatcherStats :=
  ⟨.dir, statAt ctime, some files, none, []⟩

def eio : JsError := ⟨some "EIO", "EIO: i/o error, lstat"⟩

def enoent : JsError := ⟨some "ENOENT", "ENOENT: no such file or directory, lstat"⟩

/-- No `preChange` listener is attached. -/
def noListener : Listener := fun _ _ _ => []

/-- A listener that, on the `preChange` of `/r/a`, registers the field `tag` for that path. -/
def tagging : Listener := fun _ path _ =>
  if path = "/r/a" then [("/r/a", .ok [("tag", .num 1)])] else []

/-- A listener that, on the `preChange` of `/r/a`, passes a promise that rejects. -/
def rejecting : Listener := fun _ path _ =>
  if path = "/r/a" then [("/r/a", .error ⟨none, "hash failed"⟩)] else []

/-- A listener that, on the `preChange` of `/r/a`, assigns the property `ctime` of that
path the number 0. -/
def restamping : Listener := fun _ path _ =>
  if path = "/r/a" then [("/r/a", .ok [("ctime", .num 0)])] else []

def eperm : JsError := ⟨some "EPERM", "EPERM: operation not permitted, lstat"⟩

/-- The directory `/r` holding the files `a` and `b`. -/
def dirAB (rootCtime aCtime bCtime : Int) : FsNode :=
  .directory (statAt rootCtime)
    (.cons "a" (fileAt aCtime) (.cons "b" (fileAt bCtime) .nil))

/-- The directory `/r` holding `a` and `b`, where `lstat` of `b` fails with `EIO`. -/
def dirABroken : FsNode :=
  .directory (statAt 1) (.cons "a" (fileAt 1) (.cons "b" (.lstatFails eio) .nil))

/-- The directory `/r` holding `a` and `b`, where `lstat` of `b` fails with `EPERM`. -/
def dirABDenied : FsNode :=
  .directory (statAt 1) (.cons "a" (fileAt 1) (.cons "b" (.lstatFails eperm) .nil))

/-- The directory `/r` holding the file `b` only. -/
def dirB : FsNode := .directory (statAt 2) (.cons "b" (fileAt 1) .nil)

def emptyDir (ctime : Int) : FsNode := .directory (statAt ctime) .nil

/-- The directory `/r` holding a file `a` and a directory `d`; `d` lists an entry `x`
on which `lstat` would fail with `EIO`. -/
def nested : FsNode :=
  .directory (statAt 1)
    (.cons "a" (fileAt 1)
      (.cons "d" (.directory (statAt 1) (.cons "x" (.lstatFails eio) .nil)) .nil))

def fresh : StatDirWatcher := StatDirWatcher.construct "/r" ⟨none, none, none⟩

/-- One completed tick over `a` and `b`. -/
def afterFirstTick : StatDirWatcher := StatDirWatcher.tick noListener fresh (dirAB 1 1 1)

/-- One completed tick over `a` and `b`, then a tick that fails on `b`. -/
def afterBrokenSecondTick : StatDirWatcher :=
  StatDirWatcher.tick noListener (StatDirWatcher.tick noListener fresh (dirAB 1 1 1)) dirABroken

/-- A first tick that fails on `b` after it has seen `a`. -/
def afterBrokenFirstTick : StatDirWatcher := StatDirWatcher.tick noListener fresh dirABroken

/-- The state of `afterBrokenFirstTick`, then a completed tick over `dirB`. -/
def afterRecovery : StatDirWatcher := StatDirWatcher.tick noListener afterBrokenFirstTick dirB

/-- One completed tick over the empty root. -/
def afterEmptyTick : StatDirWatcher := StatDirWatcher.tick noListener fresh (emptyDir 1)

/-- The state of `afterEmptyTick`, then a tick in which `tagging` listens and which fails
on `b` after it has seen `a`. -/
def afterBrokenTaggedTick : StatDirWatcher :=
  StatDirWatcher.tick tagging afterEmptyTick dirABroken

/-- A first tick whose `lstat` of the root fails with `EIO`. -/
def afterRootFailure : StatDirWatcher :=
  StatDirWatcher.tick noListener fresh (.lstatFails eio)

/-! # Theorems -/

namespace StatDirWatcher

/-! ### What the walk leaves alone -/

theorem addToNewCachedStat_fixed {w w' : StatDirWatcher} {path : String} {obj : Augment}
    (h : addToNewCachedStat w path obj = .ok w') : fixedPart w' = fixedPart w := by
  unfold addToNewCachedStat at h
  split at h
  · cases h
  · split at h <;> (injection h with h; subst h; rfl)

theorem runCalls_fixed (calls : List (String × Augment)) :
    ∀ w : StatDirWatcher, fixedPart (runCalls w calls).state = fixedPart w := by
  induction calls with
  | nil => intro w; rfl
  | cons c rest ih =>
    intro w
    obtain ⟨path, obj⟩ := c
    simp only [runCalls]
    split
    · rfl
    · rename_i w' hw
      rw [ih w', addToNewCachedStat_fixed hw]

theorem emitPreChange_fixed (L : Listener) (w : StatDirWatcher) (filePath : String)
    (old : Option DirWatcherStats) :
    fixedPart (emitPreChange L w filePath old).state = fixedPart w := by
  simp only [emitPreChange]
  rw [runCalls_fixed]
  rfl

theorem catchStat_state (w : StatDirWatcher) (ex : JsError) : (catchStat w ex).state = w := by
  unfold catchStat; split <;> rfl

theorem tryCatch_state (o : Outcome) : (tryCatch o).state = o.state := by
  unfold tryCatch; split
  · rfl
  · exact catchStat_state _ _

theorem afterLstat_fixed (L : Listener) (w : StatDirWatcher) (filePath : String)
    (old : Option DirWatcherStats) (stat : Stats) (typed : Except JsError DirWatcherStats) :
    fixedPart (afterLstat L w filePath old stat typed).state = fixedPart w := by
  unfold afterLstat
  split
  · rfl
  · split
    · rfl
    · rw [emitPreChange_fixed]; rfl

mutual
theorem doStatThing_fixed (L : Listener) :
    ∀ (node : FsNode) (w : StatDirWatcher) (filePath : String) (recurse : Bool),
      fixedPart (doStatThing L w filePath recurse node).state = fixedPart w
  | .lstatFails ex, w, filePath, recurse => by
    rw [doStatThing, catchStat_state]
  | .entry kind stat, w, filePath, recurse => by
    rw [doStatThing, tryCatch_state, afterLstat_fixed]
  | .symlink stat readlink, w, filePath, recurse => by
    rw [doStatThing, tryCatch_state, afterLstat_fixed]
  | .directoryUnreadable stat ex, w, filePath, recurse => by
    rw [doStatThing, catchStat_state]
  | .directory stat children, w, filePath, recurse => by
    rw [doStatThing]
    have hkids : fixedPart (if recurse then statChildren L w filePath children
        else (⟨w, none⟩ : Outcome)).state = fixedPart w := by
      cases recurse
      · rfl
      · simpa using statChildren_fixed L children w filePath
    split
    · rw [catchStat_state, hkids]
    · rw [tryCatch_state, afterLstat_fixed, hkids]
theorem statChildren_fixed (L : Listener) :
    ∀ (l : FsList) (w : StatDirWatcher) (filePath : String),
      fixedPart (statChildren L w filePath l).state = fixedPart w
  | .nil, w, filePath => by rw [statChildren]
  | .cons name node rest, w, filePath => by
    rw [statChildren]
    have hnode := doStatThing_fixed L node w (filePath ++ sep ++ name) w._recursive
    split
    · exact hnode
    · rw [statChildren_fixed L rest, hnode]
end
end StatDirWatcher

/-! ### Association lists and maps -/

theorem assocGet_assocSet {α : Type} (k k' : String) (v : α) (l : List (String × α)) :
    assocGet k' (assocSet k v l) = if k' = k then some v else assocGet k' l := by
  induction l with
  | nil =>
    by_cases h : k' = k
    · simp [assocSet, assocGet, h]
    · have h' : ¬ k = k' := fun e => h e.symm
      simp [assocSet, assocGet, h, h']
  | cons hd tl ih =>
    obtain ⟨a, b⟩ := hd
    by_cases hak : a = k
    · subst hak
      by_cases h : k' = a
      · simp [assocSet, assocGet, h]
      · have h' : ¬ a = k' := fun e => h e.symm
        simp [assocSet, assocGet, h, h']
    · by_cases h : a = k'
      · subst h
        simp [assocSet, assocGet, hak]
      · simp [assocSet, assocGet, hak, h, ih]

theorem assocGet_filter_ne {α : Type} (k k' : String) (l : List (String × α)) :
    assocGet k' (l.filter (fun e => decide (e.1 ≠ k))) =
      if k' = k then none else assocGet k' l := by
  induction l with
  | nil => simp [assocGet]
  | cons hd tl ih =>
    obtain ⟨a, b⟩ := hd
    rw [List.filter_cons]
    by_cases hak : a = k
    · have hd : decide ((a, b).1 ≠ k) = false := decide_eq_false (fun hne => hne hak)
      rw [hd]
      simp only [Bool.false_eq_true, if_false]
      rw [ih]
      by_cases h : k' = k
      · simp [h]
      · have h' : ¬ a = k' := fun e => h (e.symm.trans hak)
        simp [assocGet, h, h']
    · have hd : decide ((a, b).1 ≠ k) = true := decide_eq_true hak
      rw [hd]
      simp only [if_true, assocGet]
      by_cases h : a = k'
      · have h' : ¬ k' = k := fun e => hak (h.trans e)
        simp [h, h']
      · simp only [h, if_false]
        exact ih

theorem assocGet_isSome_iff {α : Type} (k : String) (l : List (String × α)) :
    (assocGet k l).isSome = true ↔ k ∈ l.map Prod.fst := by
  induction l with
  | nil => simp [assocGet]
  | cons hd tl ih =>
    obtain ⟨a, b⟩ := hd
    by_cases h : a = k
    · simp [assocGet, h]
    · have h' : ¬ k = a := fun e => h e.symm
      simp only [assocGet, h, if_false, List.map_cons, List.mem_cons, h', false_or]
      exact ih

theorem assocGet_of_mem {α : Type} (k : String) (v : α) (l : List (String × α))
    (hnd : (l.map Prod.fst).Nodup) (hmem : (k, v) ∈ l) : assocGet k l = some v := by
  induction l with
  | nil => cases hmem
  | cons hd tl ih =>
    obtain ⟨a, b⟩ := hd
    simp only [List.map_cons, List.nodup_cons] at hnd
    rcases List.mem_cons.1 hmem with h | h
    · injection h with h1 h2
      subst h1; subst h2
      simp [assocGet]
    · have hne : ¬ a = k := by
        intro e
        subst e
        exact hnd.1 (List.mem_map_of_mem Prod.fst h)
      simp only [assocGet, hne, if_false]
      exact ih hnd.2 h

namespace JsMap

variable {α : Type}

theorem get_set (m : JsMap α) (k k' : String) (v : α) :
    (m.set k v).get k' = if k' = k then some v else m.get k' :=
  assocGet_assocSet k k' v m.entries

theorem get_delete (m : JsMap α) (k k' : String) :
    (m.delete k).get k' = if k' = k then none else m.get k' :=
  assocGet_filter_ne k k' m.entries

theorem has_iff_mem_keys (m : JsMap α) (k : String) : m.has k = true ↔ k ∈ m.keys :=
  assocGet_isSome_iff k m.entries

theorem has_set (m : JsMap α) (k k' : String) (v : α) :
    (m.set k v).has k' = true ↔ (k' = k ∨ m.has k' = true) := by
  unfold has
  rw [get_set]
  by_cases h : k' = k <;> simp [h]

theorem get_empty (k : String) : (JsMap.empty : JsMap α).get k = none := rfl

theorem has_empty (k : String) : (JsMap.empty : JsMap α).has k = false := rfl

end JsMap

namespace StatDirWatcher

/-! ### The two loops of the commit -/

theorem installLoop_log_uninitialized :
    ∀ (es : List (String × DirWatcherStats)) (cache : JsMap DirWatcherStats)
      (log : List ChangeEvent), (installLoop false es cache log).2 = log := by
  intro es
  induction es with
  | nil => intro cache log; rfl
  | cons e rest ih =>
    intro cache log
    obtain ⟨k, v⟩ := e
    simp only [installLoop]
    rw [ih]
    rfl

theorem installLoop_has (i : Bool) :
    ∀ (es : List (String × DirWatcherStats)) (cache : JsMap DirWatcherStats)
      (log : List ChangeEvent) (k : String),
      (installLoop i es cache log).1.has k = true ↔
        (cache.has k = true ∨ k ∈ es.map Prod.fst) := by
  intro es
  induction es with
  | nil => intro cache log k; simp [installLoop]
  | cons e rest ih =>
    intro cache log k
    obtain ⟨a, v⟩ := e
    simp only [installLoop]
    rw [ih, JsMap.has_set]
    simp only [List.map_cons, List.mem_cons]
    tauto

theorem removalLoop_keeps (unchanged : List String) (pending : JsMap DirWatcherStats) :
    ∀ (es : List (String × DirWatcherStats)) (cache : JsMap DirWatcherStats)
      (log : List ChangeEvent),
      (∀ e ∈ es, e.1 ∈ unchanged ∨ pending.has e.1 = true) →
      removalLoop unchanged pending es cache log = (cache, log) := by
  intro es
  induction es with
  | nil => intro cache log _; rfl
  | cons e rest ih =>
    intro cache log h
    obtain ⟨a, v⟩ := e
    have ha := h (a, v) (List.mem_cons_self _ _)
    have hcond : (!(decide (a ∈ unchanged)) && !(pending.has a)) = false := by
      rcases ha with ha | ha
      · simp [ha]
      · simp at ha; simp [ha]
    simp only [removalLoop, hcond]
    exact ih cache log (fun e he => h e (List.mem_cons_of_mem _ he))

theorem walkPhase_fixed (L : Listener) (w : StatDirWatcher) (fs : FsNode) :
    keptPart (walkPhase L w fs).state = keptPart w := by
  have h0 := doStatThing_fixed L fs (startWalk w) w._dir true
  have h : keptPart (doStatThing L (startWalk w) w._dir true fs).state = keptPart w := by
    simp only [fixedPart, Prod.mk.injEq] at h0
    simp only [keptPart, Prod.mk.injEq]
    exact ⟨h0.1, h0.2.1, h0.2.2.1, h0.2.2.2.1, h0.2.2.2.2.1, h0.2.2.2.2.2.1⟩
  simp only [walkPhase]
  split
  · exact h
  · split
    · exact h
    · exact h

/-- Claim C2: the first tick after construction emits no `change` event, whatever the
tree, the options and the listeners. -/
theorem first_tick_emits_no_change (dir : String) (options : StatDirWatcherOptions)
    (L : Listener) (fs : FsNode) :
    (tick L (construct dir options) fs).changeLog = [] := by
  have hfix := walkPhase_fixed L (construct dir options) fs
  simp only [keptPart, Prod.mk.injEq] at hfix
  obtain ⟨hcache, -, -, hinit, hlog, -⟩ := hfix
  simp only [tick]
  split
  · exact hlog
  · show (walkPhase L (construct dir options) fs).state.changeLog ++ _ = []
    rw [hlog]
    show commitEvents (walkPhase L (construct dir options) fs).state = []
    unfold commitEvents
    rw [hinit, hcache]
    simp only [construct]
    rw [removalLoop_keeps]
    · exact installLoop_log_uninitialized _ _ _
    · intro e he
      right
      have hk : e.1 ∈ (installLoop false
          (walkPhase L (construct dir options) fs).state._newCachedStats.entries
          JsMap.empty []).1.keys := List.mem_map_of_mem Prod.fst he
      rw [← JsMap.has_iff_mem_keys, installLoop_has] at hk
      rcases hk with hk | hk
      · simp [JsMap.has_empty] at hk
      · exact (JsMap.has_iff_mem_keys _ _).2 hk

/-! ### What a `change` listener finds in the cache -/

theorem tick_changeLog (L : Listener) (w : StatDirWatcher) (fs : FsNode) :
    (tick L w fs).changeLog = w.changeLog ++ tickEvents L w fs := by
  have hfix := walkPhase_fixed L w fs
  simp only [keptPart, Prod.mk.injEq] at hfix
  obtain ⟨-, -, -, -, hlog, -⟩ := hfix
  simp only [tick, tickEvents]
  split
  · simp [warn, hlog]
  · simp [commit, hlog]

theorem installLoop_seesCommitted (i : Bool) (pending : List (String × DirWatcherStats))
    (hnd : (pending.map Prod.fst).Nodup) :
    ∀ (es done : List (String × DirWatcherStats)) (cache : JsMap DirWatcherStats)
      (log : List ChangeEvent),
      pending = done ++ es →
      (∀ kv ∈ done, cache.get kv.1 = some kv.2) →
      (∀ e ∈ log, SeesCommitted pending e) →
      (∀ kv ∈ pending, (installLoop i es cache log).1.get kv.1 = some kv.2) ∧
      (∀ e ∈ (installLoop i es cache log).2, SeesCommitted pending e) := by
  intro es
  induction es with
  | nil =>
    intro done cache log hp hcache hlog
    simp only [List.append_nil] at hp
    subst hp
    exact ⟨hcache, hlog⟩
  | cons x rest ih =>
    intro done cache log hp hcache hlog
    obtain ⟨k, v⟩ := x
    have hp' : pending = (done ++ [(k, v)]) ++ rest := by simp [hp]
    have hk : k ∉ done.map Prod.fst := by
      rw [hp, List.map_append, List.nodup_append] at hnd
      intro hmem
      exact hnd.2.2 hmem (by simp)
    have hcache' : ∀ kv ∈ done ++ [(k, v)], (cache.set k v).get kv.1 = some kv.2 := by
      intro kv hkv
      rw [JsMap.get_set]
      rcases List.mem_append.1 hkv with h | h
      · have hne : ¬ kv.1 = k := fun e => hk (e ▸ List.mem_map_of_mem Prod.fst h)
        simp only [hne, if_false]
        exact hcache kv h
      · simp only [List.mem_singleton] at h
        subst h
        simp
    simp only [installLoop]
    apply ih (done ++ [(k, v)]) (cache.set k v) _ hp' hcache'
    intro e he
    cases i
    · exact hlog e he
    · simp only [if_true, List.mem_append, List.mem_singleton] at he
      rcases he with he | he
      · exact hlog e he
      · subst he
        refine ⟨?_, ?_⟩
        · intro r hr
          simp only [Option.some.injEq] at hr
          subst hr
          exact ⟨done, rest, hp, hcache'⟩
        · intro hnone
          simp at hnone

theorem removalLoop_seesCommitted (unchanged : List String) (pending : JsMap DirWatcherStats) :
    ∀ (es : List (String × DirWatcherStats)) (cache : JsMap DirWatcherStats)
      (log : List ChangeEvent),
      (∀ kv ∈ pending.entries, cache.get kv.1 = some kv.2) →
      (∀ e ∈ log, SeesCommitted pending.entries e) →
      ∀ e ∈ (removalLoop unchanged pending es cache log).2, SeesCommitted pending.entries e := by
  intro es
  induction es with
  | nil => intro cache log _ hlog; exact hlog
  | cons x rest ih =>
    intro cache log hcache hlog
    obtain ⟨k, v⟩ := x
    simp only [removalLoop]
    split
    · rename_i hcond
      have hk : pending.has k = false := by
        simp only [Bool.and_eq_true, Bool.not_eq_true'] at hcond
        exact hcond.2
      have hcache' : ∀ kv ∈ pending.entries, (cache.delete k).get kv.1 = some kv.2 := by
        intro kv hkv
        rw [JsMap.get_delete]
        have hne : ¬ kv.1 = k := by
          intro e
          have hin : pending.has kv.1 = true :=
            (JsMap.has_iff_mem_keys _ _).2 (List.mem_map_of_mem Prod.fst hkv)
          rw [e, hk] at hin
          cases hin
        simp only [hne, if_false]
        exact hcache kv hkv
      apply ih _ _ hcache'
      intro e he
      simp only [List.mem_append, List.mem_singleton] at he
      rcases he with he | he
      · exact hlog e he
      · subst he
        refine ⟨?_, ?_⟩
        · intro r hr
          simp at hr
        · intro _
          exact hcache'
    · exact ih _ _ hcache hlog

theorem commitEvents_seesCommitted (s : StatDirWatcher) :
    ∀ e ∈ commitEvents s, SeesCommitted s._newCachedStats.entries e := by
  have hinst := installLoop_seesCommitted s._initialized s._newCachedStats.entries
    s._newCachedStats.nodup s._newCachedStats.entries [] s.cachedStats [] (by simp)
    (by intro kv hkv; cases hkv) (by intro e he; cases he)
  exact removalLoop_seesCommitted _ _ _ _ _ hinst.1 hinst.2

/-- Claim C9, amended: when a `change` event is emitted, the cache holds the new record
of the event's own path and of every pending path before it in the iteration order of
the pending generation; when the event reports a removal, the cache holds the new record
of every pending path. -/
theorem change_event_sees_committed_so_far (L : Listener) (w : StatDirWatcher)
    (fs : FsNode) :
    (tick L w fs).changeLog = w.changeLog ++ tickEvents L w fs ∧
    ∀ e ∈ tickEvents L w fs, SeesCommitted (pendingAtCommit L w fs).entries e := by
  refine ⟨tick_changeLog L w fs, ?_⟩
  intro e he
  simp only [tickEvents] at he
  split at he
  · cases he
  · exact commitEvents_seesCommitted _ e he

/-! ### Coverage of the first walk -/

theorem addToNewCachedStat_has {w w' : StatDirWatcher} {path : String} {obj : Augment}
    (h : addToNewCachedStat w path obj = .ok w') (p : String) :
    w'._newCachedStats.has p = true ↔ w._newCachedStats.has p = true := by
  unfold addToNewCachedStat at h
  split at h
  · cases h
  · split at h
    · injection h with h; subst h; rfl
    · injection h with h; subst h; rfl
    · rename_i hget
      injection h with h
      subst h
      simp only [JsMap.has_set]
      constructor
      · rintro (h | h)
        · subst h
          simp [JsMap.has, hget]
        · exact h
      · exact Or.inr

theorem runCalls_has (calls : List (String × Augment)) :
    ∀ (w : StatDirWatcher) (p : String),
      (runCalls w calls).state._newCachedStats.has p = true ↔ w._newCachedStats.has p = true := by
  induction calls with
  | nil => intro w p; rfl
  | cons c rest ih =>
    intro w p
    obtain ⟨path, obj⟩ := c
    simp only [runCalls]
    split
    · rfl
    · rename_i w' hw
      rw [ih w', addToNewCachedStat_has hw]

theorem emitPreChange_has (L : Listener) (w : StatDirWatcher) (filePath : String)
    (old : Option DirWatcherStats) (p : String) :
    (emitPreChange L w filePath old).state._newCachedStats.has p = true ↔
      w._newCachedStats.has p = true := by
  simp only [emitPreChange]
  rw [runCalls_has]

theorem catchStat_thrown (w : StatDirWatcher) (ex : JsError) :
    (catchStat w ex).thrown = if ex.isFatal then some ex else none := by
  unfold catchStat JsError.isFatal
  split <;> rfl

theorem catchStat_thrown_fatal {w : StatDirWatcher} {ex ex' : JsError}
    (h : (catchStat w ex).thrown = some ex') : ex' = ex ∧ ex.isFatal := by
  rw [catchStat_thrown] at h
  split at h
  · rename_i hf
    injection h with h
    exact ⟨h.symm, hf⟩
  · cases h

theorem tryCatch_thrown_fatal {o : Outcome} {ex : JsError}
    (h : (tryCatch o).thrown = some ex) : ex.isFatal := by
  unfold tryCatch at h
  split at h
  · rename_i hnone
    rw [hnone] at h
    cases h
  · obtain ⟨h1, h2⟩ := catchStat_thrown_fatal h
    exact h1 ▸ h2

theorem doStatThing_thrown_fatal (L : Listener) (node : FsNode) (w : StatDirWatcher)
    (filePath : String) (recurse : Bool) {ex : JsError}
    (h : (doStatThing L w filePath recurse node).thrown = some ex) : ex.isFatal := by
  cases node with
  | lstatFails e =>
    rw [doStatThing] at h
    obtain ⟨h1, h2⟩ := catchStat_thrown_fatal h
    exact h1 ▸ h2
  | entry kind stat =>
    rw [doStatThing] at h
    exact tryCatch_thrown_fatal h
  | symlink stat readlink =>
    rw [doStatThing] at h
    exact tryCatch_thrown_fatal h
  | directoryUnreadable stat e =>
    rw [doStatThing] at h
    obtain ⟨h1, h2⟩ := catchStat_thrown_fatal h
    exact h1 ▸ h2
  | directory stat children =>
    rw [doStatThing] at h
    split at h
    · obtain ⟨h1, h2⟩ := catchStat_thrown_fatal h
      exact h1 ▸ h2
    · exact tryCatch_thrown_fatal h

theorem statChildren_thrown_fatal (L : Listener) :
    ∀ (l : FsList) (w : StatDirWatcher) (filePath : String) {ex : JsError},
      (statChildren L w filePath l).thrown = some ex → ex.isFatal
  | .nil, w, filePath, ex => by
    intro h
    rw [statChildren] at h
    cases h
  | .cons name node rest, w, filePath, ex => by
    intro h
    rw [statChildren] at h
    split at h
    · rename_i e he
      injection h with h
      exact h ▸ doStatThing_thrown_fatal L node w _ _ he
    · exact statChildren_thrown_fatal L rest _ filePath h

/-- An entry seen for the first time, whose record can be built, becomes pending. -/
theorem afterLstat_new_has (L : Listener) (w : StatDirWatcher) (filePath : String)
    (stat : Stats) (resultStat : DirWatcherStats) (p : String) :
    (tryCatch (afterLstat L w filePath none stat (.ok resultStat))).state._newCachedStats.has p
        = true ↔ (p = filePath ∨ w._newCachedStats.has p = true) := by
  rw [tryCatch_state]
  simp only [afterLstat, isUnchanged, Bool.false_eq_true, if_false]
  rw [emitPreChange_has, JsMap.has_set]

theorem fixed_cache {w w' : StatDirWatcher} (h : fixedPart w' = fixedPart w) :
    w'.cachedStats = w.cachedStats := by
  simp only [fixedPart, Prod.mk.injEq] at h
  exact h.1

theorem fixed_recursive {w w' : StatDirWatcher} (h : fixedPart w' = fixedPart w) :
    w'._recursive = w._recursive := by
  simp only [fixedPart, Prod.mk.injEq] at h
  exact h.2.2.1

mutual
theorem doStatThing_first_walk (L : Listener) :
    ∀ (node : FsNode) (w : StatDirWatcher) (filePath : String) (recurse : Bool),
      w.cachedStats = JsMap.empty → node.callsSucceed w._recursive recurse = true →
      (doStatThing L w filePath recurse node).thrown = none →
      ∀ p, (doStatThing L w filePath recurse node).state._newCachedStats.has p = true ↔
        (p ∈ node.walked w._recursive filePath recurse ∨ w._newCachedStats.has p = true)
  | .lstatFails ex, w, filePath, recurse => by
    intro _ hok; simp [FsNode.callsSucceed] at hok
  | .entry kind stat, w, filePath, recurse => by
    intro hcache _ hthrown p
    rw [doStatThing, hcache, JsMap.get_empty] at hthrown ⊢
    cases kind
    case unknown =>
      simp [typeEntry, untypedError, afterLstat, isUnchanged, tryCatch, catchStat] at hthrown
    all_goals
      simp only [typeEntry, FsNode.walked, List.mem_singleton]
      exact afterLstat_new_has L w filePath stat _ p
  | .symlink stat (.ok destination), w, filePath, recurse => by
    intro hcache _ _ p
    rw [doStatThing, hcache, JsMap.get_empty]
    simp only [typeSymlink, FsNode.walked, List.mem_singleton]
    exact afterLstat_new_has L w filePath stat _ p
  | .symlink stat (.error ex), w, filePath, recurse => by
    intro _ hok; simp [FsNode.callsSucceed] at hok
  | .directoryUnreadable stat ex, w, filePath, recurse => by
    intro _ hok; simp [FsNode.callsSucceed] at hok
  | .directory stat children, w, filePath, recurse => by
    intro hcache hok hthrown p
    rw [FsNode.callsSucceed] at hok
    rw [doStatThing] at hthrown ⊢
    cases recurse
    · simp only [Bool.false_eq_true, if_false] at hthrown ⊢
      rw [hcache, JsMap.get_empty]
      simp only [FsNode.walked, Bool.false_eq_true, if_false, List.mem_singleton]
      exact afterLstat_new_has L w filePath stat _ p
    · simp only [if_true] at hthrown ⊢
      simp only [Bool.not_true, Bool.false_or] at hok
      have hkids := statChildren_first_walk L children w filePath hcache hok
      cases hk : (statChildren L w filePath children).thrown with
      | some ex =>
        have hfatal := statChildren_thrown_fatal L children w filePath hk
        simp only [hk] at hthrown
        rw [catchStat_thrown, if_pos hfatal] at hthrown
        cases hthrown
      | none =>
        simp only [hk] at hthrown ⊢
        rw [hcache, JsMap.get_empty]
        rw [afterLstat_new_has, hkids hk p]
        simp only [FsNode.walked, if_true, List.mem_cons]
        tauto
theorem statChildren_first_walk (L : Listener) :
    ∀ (l : FsList) (w : StatDirWatcher) (filePath : String),
      w.cachedStats = JsMap.empty → l.callsSucceed w._recursive = true →
      (statChildren L w filePath l).thrown = none →
      ∀ p, (statChildren L w filePath l).state._newCachedStats.has p = true ↔
        (p ∈ l.walked w._recursive filePath ∨ w._newCachedStats.has p = true)
  | .nil, w, filePath => by
    intro _ _ _ p
    simp [statChildren, FsList.walked]
  | .cons name node rest, w, filePath => by
    intro hcache hok hthrown p
    rw [FsList.callsSucceed, Bool.and_eq_true] at hok
    rw [statChildren] at hthrown ⊢
    have hfix := doStatThing_fixed L node w (filePath ++ sep ++ name) w._recursive
    have hnode := doStatThing_first_walk L node w (filePath ++ sep ++ name) w._recursive
      hcache hok.1
    cases hk : (doStatThing L w (filePath ++ sep ++ name) w._recursive node).thrown with
    | some ex =>
      simp [hk] at hthrown
    | none =>
      simp only [hk] at hthrown ⊢
      have hrest := statChildren_first_walk L rest _ filePath
        ((fixed_cache hfix).trans hcache) ((fixed_recursive hfix).symm ▸ hok.2) hthrown p
      rw [hrest, hnode hk p, fixed_recursive hfix]
      simp only [FsList.walked, List.mem_append]
      tauto
end

/-! ### Properties that no augmentation assigns -/

theorem assocGet_objectAssign_none (k : String) :
    ∀ (fields target : JsObject), assocGet k target = none → assocGet k fields = none →
      assocGet k (objectAssign target fields) = none := by
  intro fields
  induction fields with
  | nil => intro target ht _; exact ht
  | cons kv rest ih =>
    intro target ht hf
    obtain ⟨a, b⟩ := kv
    by_cases hak : a = k
    · simp [assocGet, hak] at hf
    · simp only [assocGet, hak, if_false] at hf
      have hka : ¬ k = a := fun e => hak e.symm
      have hstep : assocGet k (assocSet a b target) = none := by
        rw [assocGet_assocSet, if_neg hka]
        exact ht
      exact ih (assocSet a b target) hstep hf

theorem addToNewCachedStat_unassigned (k : String) {w w' : StatDirWatcher} {path : String}
    {obj : Augment} (h : addToNewCachedStat w path obj = .ok w')
    (hobj : ∀ fields, obj = .ok fields → assocGet k fields = none)
    (hw : Unassigned k w._newCachedStats) : Unassigned k w'._newCachedStats := by
  unfold addToNewCachedStat at h
  split at h
  · cases h
  · split at h
    · injection h with h; subst h; exact hw
    · injection h with h; subst h; exact hw
    · rename_i target fields hget
      injection h with h
      subst h
      intro p r hr
      simp only [JsMap.get_set] at hr
      by_cases hp : p = path
      · simp only [hp, if_true, Option.some.injEq] at hr
        subst hr
        exact assocGet_objectAssign_none k fields target.extra (hw path target hget)
          (hobj fields rfl)
      · simp only [hp, if_false] at hr
        exact hw p r hr

theorem runCalls_unassigned (k : String) (calls : List (String × Augment))
    (hcalls : ∀ c ∈ calls, ∀ fields, c.2 = .ok fields → assocGet k fields = none) :
    ∀ w : StatDirWatcher, Unassigned k w._newCachedStats →
      Unassigned k (runCalls w calls).state._newCachedStats := by
  induction calls with
  | nil => intro w hw; exact hw
  | cons c rest ih =>
    intro w hw
    obtain ⟨path, obj⟩ := c
    simp only [runCalls]
    split
    · exact hw
    · rename_i w' hw'
      exact ih (fun c hc => hcalls c (List.mem_cons_of_mem _ hc)) w'
        (addToNewCachedStat_unassigned k hw'
          (fun fields hf => hcalls (path, obj) (List.mem_cons_self _ _) fields hf) hw)

theorem afterLstat_unassigned (k : String) (L : Listener) (hL : spares L k)
    (w : StatDirWatcher) (filePath : String) (old : Option DirWatcherStats) (stat : Stats)
    (typed : Except JsError DirWatcherStats) (htyped : ∀ r, typed = .ok r → r.extra = [])
    (hw : Unassigned k w._newCachedStats) :
    Unassigned k (afterLstat L w filePath old stat typed).state._newCachedStats := by
  unfold afterLstat
  split
  · exact hw
  · split
    · exact hw
    · rename_i resultStat
      simp only [emitPreChange]
      apply runCalls_unassigned k _ (fun c hc fields hf => hL _ _ _ c fields hc hf)
      intro p r hr
      simp only [JsMap.get_set] at hr
      by_cases hp : p = filePath
      · simp only [hp, if_true, Option.some.injEq] at hr
        subst hr
        rw [htyped _ rfl]
        rfl
      · simp only [hp, if_false] at hr
        exact hw p r hr

theorem typeEntry_extra (kind : EntryKind) (stat : Stats) :
    ∀ r, typeEntry kind stat = .ok r → r.extra = [] := by
  intro r hr
  cases kind <;> simp [typeEntry] at hr <;> (subst hr; rfl)

theorem typeSymlink_extra (stat : Stats) (readlink : Except JsError String) :
    ∀ r, typeSymlink stat readlink = .ok r → r.extra = [] := by
  intro r hr
  cases readlink with
  | error ex => simp [typeSymlink] at hr
  | ok d =>
    simp [typeSymlink] at hr
    subst hr
    rfl

mutual
/-- A walk whose listeners never pass a property named `k` leaves every pending record
without an assigned property of that name. -/
theorem doStatThing_unassigned (k : String) (L : Listener) (hL : spares L k) :
    ∀ (node : FsNode) (w : StatDirWatcher) (filePath : String) (recurse : Bool),
      Unassigned k w._newCachedStats →
      Unassigned k (doStatThing L w filePath recurse node).state._newCachedStats
  | .lstatFails ex, w, filePath, recurse => by
    intro hw
    rw [doStatThing, catchStat_state]
    exact hw
  | .entry kind stat, w, filePath, recurse => by
    intro hw
    rw [doStatThing, tryCatch_state]
    exact afterLstat_unassigned k L hL w filePath _ stat _ (typeEntry_extra kind stat) hw
  | .symlink stat readlink, w, filePath, recurse => by
    intro hw
    rw [doStatThing, tryCatch_state]
    exact afterLstat_unassigned k L hL w filePath _ stat _ (typeSymlink_extra stat readlink) hw
  | .directoryUnreadable stat ex, w, filePath, recurse => by
    intro hw
    rw [doStatThing, catchStat_state]
    exact hw
  | .directory stat children, w, filePath, recurse => by
    intro hw
    rw [doStatThing]
    have hkids : Unassigned k (if recurse then statChildren L w filePath children
        else (⟨w, none⟩ : Outcome)).state._newCachedStats := by
      cases recurse
      · exact hw
      · exact statChildren_unassigned k L hL children w filePath hw
    split
    · rw [catchStat_state]
      exact hkids
    · rw [tryCatch_state]
      exact afterLstat_unassigned k L hL _ filePath _ stat _
        (by intro r hr; injection hr with hr; subst hr; rfl) hkids
theorem statChildren_unassigned (k : String) (L : Listener) (hL : spares L k) :
    ∀ (l : FsList) (w : StatDirWatcher) (filePath : String),
      Unassigned k w._newCachedStats →
      Unassigned k (statChildren L w filePath l).state._newCachedStats
  | .nil, w, filePath => by
    intro hw
    rw [statChildren]
    exact hw
  | .cons name node rest, w, filePath => by
    intro hw
    rw [statChildren]
    have hhead := doStatThing_unassigned k L hL node w (filePath ++ sep ++ name)
      w._recursive hw
    split
    · exact hhead
    · exact statChildren_unassigned k L hL rest _ filePath hhead
end

theorem unassigned_empty (k : String) : Unassigned k (JsMap.empty : JsMap DirWatcherStats) := by
  intro p r hr
  simp [JsMap.get_empty] at hr

theorem walked_leaf (r : Bool) (path : String) (node : FsNode) :
    node.walked r path false = [path] := by
  cases node <;> simp [FsNode.walked]

mutual
theorem walked_recursive :
    ∀ (node : FsNode) (path : String), node.walked true path true = node.allPaths path
  | .lstatFails _, path => by simp [FsNode.walked, FsNode.allPaths]
  | .entry _ _, path => by simp [FsNode.walked, FsNode.allPaths]
  | .symlink _ _, path => by simp [FsNode.walked, FsNode.allPaths]
  | .directoryUnreadable _ _, path => by simp [FsNode.walked, FsNode.allPaths]
  | .directory _ children, path => by
    simp [FsNode.walked, FsNode.allPaths, walkedList_recursive children path]
theorem walkedList_recursive :
    ∀ (l : FsList) (dirPath : String), l.walked true dirPath = l.allPaths dirPath
  | .nil, dirPath => by simp [FsList.walked, FsList.allPaths]
  | .cons name node rest, dirPath => by
    simp [FsList.walked, FsList.allPaths, walked_recursive node, walkedList_recursive rest]
end

theorem walkedList_flat :
    ∀ (l : FsList) (dirPath : String),
      l.walked false dirPath = l.names.map (fun name => dirPath ++ sep ++ name)
  | .nil, dirPath => by simp [FsList.walked, FsList.names]
  | .cons name node rest, dirPath => by
    simp [FsList.walked, FsList.names, walked_leaf, walkedList_flat rest]

theorem walked_eq_reachable (r : Bool) (root : String) (fs : FsNode) :
    fs.walked r root true = reachablePaths r root fs := by
  cases r
  · cases fs <;> simp [reachablePaths, FsNode.walked, FsNode.childPaths, walkedList_flat]
  · simp [reachablePaths, walked_recursive]

theorem commitCache_has_of_empty (s : StatDirWatcher) (h : s.cachedStats = JsMap.empty)
    (k : String) : (commitCache s).has k = true ↔ s._newCachedStats.has k = true := by
  simp only [commitCache]
  rw [h]
  rw [removalLoop_keeps]
  · rw [installLoop_has, JsMap.has_empty, JsMap.has_iff_mem_keys]
    simp only [JsMap.keys, Bool.false_eq_true, false_or]
  · intro e he
    right
    have hk : e.1 ∈ (installLoop s._initialized s._newCachedStats.entries
        JsMap.empty []).1.keys := List.mem_map_of_mem Prod.fst he
    rw [← JsMap.has_iff_mem_keys, installLoop_has] at hk
    rcases hk with hk | hk
    · simp [JsMap.has_empty] at hk
    · exact (JsMap.has_iff_mem_keys _ _).2 hk

/-- A walk phase that does not throw leaves the pending generation of its walk. -/
theorem walkPhase_ok {L : Listener} {w : StatDirWatcher} {fs : FsNode}
    (h : (walkPhase L w fs).thrown = none) :
    (doStatThing L (startWalk w) w._dir true fs).thrown = none ∧
    (walkPhase L w fs).state._newCachedStats =
      (doStatThing L (startWalk w) w._dir true fs).state._newCachedStats ∧
    (walkPhase L w fs).state._unchangedPaths =
      (doStatThing L (startWalk w) w._dir true fs).state._unchangedPaths := by
  simp only [walkPhase] at h ⊢
  cases hwalk : (doStatThing L (startWalk w) w._dir true fs).thrown with
  | some ex => simp [hwalk] at h
  | none =>
    simp only [hwalk] at h ⊢
    cases hall : awaitAll
        (doStatThing L (startWalk w) w._dir true fs).state._externalStatPropertyPromises with
    | some ex => simp [hall] at h
    | none => simp

/-! #### The first tick runs to completion when nothing interferes -/

theorem afterLstat_quiet (L : Listener) (hL : ∀ w p old, L w p old = [])
    (w : StatDirWatcher) (filePath : String) (old : Option DirWatcherStats) (stat : Stats)
    (resultStat : DirWatcherStats) :
    (tryCatch (afterLstat L w filePath old stat (.ok resultStat))).thrown = none ∧
    (tryCatch (afterLstat L w filePath old stat
      (.ok resultStat))).state._externalStatPropertyPromises =
        w._externalStatPropertyPromises := by
  rw [tryCatch_state]
  have h : (afterLstat L w filePath old stat (.ok resultStat)).thrown = none ∧
      (afterLstat L w filePath old stat (.ok resultStat)).state._externalStatPropertyPromises =
        w._externalStatPropertyPromises := by
    unfold afterLstat
    split
    · exact ⟨rfl, rfl⟩
    · simp [emitPreChange, hL, runCalls]
  refine ⟨?_, h.2⟩
  simp only [tryCatch, h.1]

mutual
theorem doStatThing_quiet (L : Listener) (hL : ∀ w p old, L w p old = []) :
    ∀ (node : FsNode) (w : StatDirWatcher) (filePath : String) (recurse : Bool),
      node.callsSucceed w._recursive recurse = true →
      node.kindsKnown w._recursive recurse = true →
      (doStatThing L w filePath recurse node).thrown = none ∧
      (doStatThing L w filePath recurse node).state._externalStatPropertyPromises =
        w._externalStatPropertyPromises
  | .lstatFails ex, w, filePath, recurse => by
    intro hok; simp [FsNode.callsSucceed] at hok
  | .entry kind stat, w, filePath, recurse => by
    intro _ hk
    rw [doStatThing]
    cases kind
    case unknown => simp [FsNode.kindsKnown] at hk
    all_goals exact afterLstat_quiet L hL w filePath _ stat _
  | .symlink stat (.ok destination), w, filePath, recurse => by
    intro _ _
    rw [doStatThing]
    exact afterLstat_quiet L hL w filePath _ stat _
  | .symlink stat (.error ex), w, filePath, recurse => by
    intro hok; simp [FsNode.callsSucceed] at hok
  | .directoryUnreadable stat ex, w, filePath, recurse => by
    intro hok; simp [FsNode.callsSucceed] at hok
  | .directory stat children, w, filePath, recurse => by
    intro hok hk
    rw [FsNode.callsSucceed] at hok
    rw [FsNode.kindsKnown] at hk
    rw [doStatThing]
    cases recurse
    · simp only [Bool.false_eq_true, if_false]
      exact afterLstat_quiet L hL w filePath _ stat _
    · simp only [if_true]
      simp only [Bool.not_true, Bool.false_or] at hok hk
      obtain ⟨h1, h2⟩ := statChildren_quiet L hL children w filePath hok hk
      simp only [h1]
      obtain ⟨h3, h4⟩ := afterLstat_quiet L hL (statChildren L w filePath children).state
        filePath (w.cachedStats.get filePath) stat
        ⟨.dir, stat, some children.names, none, []⟩
      exact ⟨h3, h4.trans h2⟩
theorem statChildren_quiet (L : Listener) (hL : ∀ w p old, L w p old = []) :
    ∀ (l : FsList) (w : StatDirWatcher) (filePath : String),
      l.callsSucceed w._recursive = true → l.kindsKnown w._recursive = true →
      (statChildren L w filePath l).thrown = none ∧
      (statChildren L w filePath l).state._externalStatPropertyPromises =
        w._externalStatPropertyPromises
  | .nil, w, filePath => by
    intro _ _
    rw [statChildren]
    exact ⟨rfl, rfl⟩
  | .cons name node rest, w, filePath => by
    intro hok hk
    rw [FsList.callsSucceed, Bool.and_eq_true] at hok
    rw [FsList.kindsKnown, Bool.and_eq_true] at hk
    have hfix := doStatThing_fixed L node w (filePath ++ sep ++ name) w._recursive
    rw [statChildren]
    obtain ⟨h1, h2⟩ := doStatThing_quiet L hL node w (filePath ++ sep ++ name) w._recursive
      hok.1 hk.1
    simp only [h1]
    obtain ⟨h3, h4⟩ := statChildren_quiet L hL rest
      (doStatThing L w (filePath ++ sep ++ name) w._recursive node).state filePath
      ((fixed_recursive hfix).symm ▸ hok.2) ((fixed_recursive hfix).symm ▸ hk.2)
    exact ⟨h3, h4.trans h2⟩
end

theorem tick_completes_quiet (L : Listener) (hL : ∀ w p old, L w p old = [])
    (w : StatDirWatcher) (fs : FsNode) (hok : fs.callsSucceed w._recursive true = true)
    (hk : fs.kindsKnown w._recursive true = true) : (tick L w fs)._initialized = true := by
  obtain ⟨h1, h2⟩ := doStatThing_quiet L hL fs (startWalk w) w._dir true hok hk
  have h2' : (doStatThing L (startWalk w) w._dir true
      fs).state._externalStatPropertyPromises = [] := h2
  have hthrown : (walkPhase L w fs).thrown = none := by
    simp only [walkPhase, h1, h2', awaitAll]
  simp only [tick, hthrown, commit]

/-! #### The record of a directory one level below the root -/

theorem addToNewCachedStat_core {w w' : StatDirWatcher} {path : String} {obj : Augment}
    (h : addToNewCachedStat w path obj = .ok w') (p : String) :
    (w'._newCachedStats.get p).map DirWatcherStats.core =
      (w._newCachedStats.get p).map DirWatcherStats.core := by
  unfold addToNewCachedStat at h
  split at h
  · cases h
  · split at h
    · injection h with h; subst h; rfl
    · injection h with h; subst h; rfl
    · rename_i hget
      injection h with h
      subst h
      simp only [JsMap.get_set]
      by_cases hp : p = path
      · subst hp
        simp [hget, DirWatcherStats.core]
      · simp [hp]

theorem runCalls_core (calls : List (String × Augment)) :
    ∀ (w : StatDirWatcher) (p : String),
      ((runCalls w calls).state._newCachedStats.get p).map DirWatcherStats.core =
        (w._newCachedStats.get p).map DirWatcherStats.core := by
  induction calls with
  | nil => intro w p; rfl
  | cons c rest ih =>
    intro w p
    obtain ⟨path, obj⟩ := c
    simp only [runCalls]
    split
    · rfl
    · rename_i w' hw
      rw [ih w', addToNewCachedStat_core hw]

theorem afterLstat_core (L : Listener) (w : StatDirWatcher) (filePath : String)
    (old : Option DirWatcherStats) (stat : Stats) (typed : Except JsError DirWatcherStats)
    (p : String) (hp : p ≠ filePath) :
    ((afterLstat L w filePath old stat typed).state._newCachedStats.get p).map
        DirWatcherStats.core = (w._newCachedStats.get p).map DirWatcherStats.core := by
  unfold afterLstat
  split
  · rfl
  · split
    · rfl
    · simp only [emitPreChange]
      rw [runCalls_core]
      simp only [JsMap.get_set, hp, if_false]

theorem afterLstat_core_self (L : Listener) (w : StatDirWatcher) (filePath : String)
    (stat : Stats) (resultStat : DirWatcherStats) :
    ((afterLstat L w filePath none stat (.ok resultStat)).state._newCachedStats.get
        filePath).map DirWatcherStats.core = some resultStat.core := by
  simp only [afterLstat, isUnchanged, Bool.false_eq_true, if_false, emitPreChange]
  rw [runCalls_core]
  simp [JsMap.get_set]

/-- A visit that does not descend touches no pending record but that of its own path. -/
theorem doStatThing_flat_core (L : Listener) (node : FsNode) (w : StatDirWatcher)
    (filePath : String) (p : String) (hp : p ≠ filePath) :
    ((doStatThing L w filePath false node).state._newCachedStats.get p).map
        DirWatcherStats.core = (w._newCachedStats.get p).map DirWatcherStats.core := by
  cases node with
  | lstatFails ex => rw [doStatThing, catchStat_state]
  | entry kind stat => rw [doStatThing, tryCatch_state, afterLstat_core L w _ _ _ _ p hp]
  | symlink stat readlink =>
    rw [doStatThing, tryCatch_state, afterLstat_core L w _ _ _ _ p hp]
  | directoryUnreadable stat ex => rw [doStatThing, catchStat_state]
  | directory stat children =>
    rw [doStatThing]
    simp only [Bool.false_eq_true, if_false]
    rw [tryCatch_state, afterLstat_core L w _ _ _ _ p hp]

theorem sep_append_cancel (dirPath a b : String)
    (h : dirPath ++ sep ++ a = dirPath ++ sep ++ b) : a = b := by
  have h1 := congrArg String.data h
  simp only [String.data_append] at h1
  exact String.ext (List.append_cancel_left h1)

theorem sep_append_ne (dirPath name : String) : dirPath ++ sep ++ name ≠ dirPath := by
  intro h
  have h1 := congrArg String.length h
  have hs : sep.length = 1 := by decide
  simp only [String.length_append, hs] at h1
  omega

theorem statChildren_flat_core (L : Listener) (dirPath p : String) :
    ∀ (l : FsList) (w : StatDirWatcher), w._recursive = false →
      (∀ n ∈ l.names, p ≠ dirPath ++ sep ++ n) →
      ((statChildren L w dirPath l).state._newCachedStats.get p).map DirWatcherStats.core =
        (w._newCachedStats.get p).map DirWatcherStats.core
  | .nil, w => by
    intro _ _
    rw [statChildren]
  | .cons name node rest, w => by
    intro hr hne
    rw [statChildren, hr]
    have hfix := doStatThing_fixed L node w (dirPath ++ sep ++ name) false
    have hhead := doStatThing_flat_core L node w (dirPath ++ sep ++ name) p
      (hne name (by simp [FsList.names]))
    split
    · exact hhead
    · rw [statChildren_flat_core L dirPath p rest _ ((fixed_recursive hfix).trans hr)
        (fun n hn => hne n (by simp [FsList.names, hn])), hhead]

theorem statChildren_flat_directory (L : Listener) (dirPath name : String) (stat : Stats)
    (below : FsList) :
    ∀ (l : FsList) (w : StatDirWatcher), w._recursive = false →
      w.cachedStats = JsMap.empty → l.names.Nodup →
      (name, FsNode.directory stat below) ∈ l.toList →
      (statChildren L w dirPath l).thrown = none →
      ((statChildren L w dirPath l).state._newCachedStats.get (dirPath ++ sep ++ name)).map
        DirWatcherStats.core = some (StatType.dir, stat, some below.names, none)
  | .nil, w => by
    intro _ _ _ hmem
    simp [FsList.toList] at hmem
  | .cons n x rest, w => by
    intro hr hcache hnd hmem hthrown
    simp only [FsList.names, List.nodup_cons] at hnd
    simp only [FsList.toList, List.mem_cons, Prod.mk.injEq] at hmem
    rw [statChildren, hr] at hthrown ⊢
    have hfix := doStatThing_fixed L x w (dirPath ++ sep ++ n) false
    cases hk : (doStatThing L w (dirPath ++ sep ++ n) false x).thrown with
    | some ex => simp [hk] at hthrown
    | none =>
      simp only [hk] at hthrown ⊢
      rcases hmem with ⟨hname, hnode⟩ | hmem
      · subst hname
        subst hnode
        rw [statChildren_flat_core L dirPath _ rest _ ((fixed_recursive hfix).trans hr)
          (fun m hm e => hnd.1 (by rw [sep_append_cancel dirPath _ _ e]; exact hm))]
        rw [doStatThing]
        simp only [Bool.false_eq_true, if_false]
        rw [tryCatch_state, hcache, JsMap.get_empty, afterLstat_core_self]
        rfl
      · exact statChildren_flat_directory L dirPath name stat below rest _
          ((fixed_recursive hfix).trans hr) ((fixed_cache hfix).trans hcache) hnd.2 hmem
          hthrown

theorem assocGet_mem {α : Type} (k : String) (v : α) (l : List (String × α))
    (h : assocGet k l = some v) : (k, v) ∈ l := by
  induction l with
  | nil => simp [assocGet] at h
  | cons hd tl ih =>
    obtain ⟨a, b⟩ := hd
    by_cases hak : a = k
    · simp only [assocGet, hak, if_true, Option.some.injEq] at h
      simp [hak, h]
    · simp only [assocGet, hak, if_false] at h
      exact List.mem_cons_of_mem _ (ih h)

theorem commitCache_get_of_empty (s : StatDirWatcher) (h : s.cachedStats = JsMap.empty)
    (k : String) : (commitCache s).get k = s._newCachedStats.get k := by
  have hinst := installLoop_seesCommitted s._initialized s._newCachedStats.entries
    s._newCachedStats.nodup s._newCachedStats.entries [] s.cachedStats [] (by simp)
    (by intro kv hkv; cases hkv) (by intro e he; cases he)
  have hhas := commitCache_has_of_empty s h k
  simp only [commitCache] at hhas ⊢
  rw [h] at hhas ⊢
  rw [removalLoop_keeps] at hhas ⊢
  · rw [h] at hinst
    cases hget : s._newCachedStats.get k with
    | some v => exact hinst.1 (k, v) (assocGet_mem k v _ hget)
    | none =>
      simp only [JsMap.has, hget, Option.isSome_none, Bool.false_eq_true, iff_false] at hhas
      cases hg : (installLoop s._initialized s._newCachedStats.entries JsMap.empty []).1.get k
        with
      | none => rfl
      | some v => simp [hg] at hhas
  all_goals
    intro e he
    right
    have hk : e.1 ∈ (installLoop s._initialized s._newCachedStats.entries
        JsMap.empty []).1.keys := List.mem_map_of_mem Prod.fst he
    rw [← JsMap.has_iff_mem_keys, installLoop_has] at hk
    rcases hk with hk | hk
    · simp [JsMap.has_empty] at hk
    · exact (JsMap.has_iff_mem_keys _ _).2 hk

/-- Claim C5, amended: over a tree on which no filesystem call of the first tick fails,
that tick either runs to completion or is aborted and leaves the cache empty; it runs to
completion when no listener registers anything and every visited entry has one of the
seven types.  Once it has run to completion, the cached paths are exactly the root with
its immediate children when `recursive` is off, and the root with all its descendants
when it is on.  With `recursive` off and no augmentation assigning `type` or `files`, the
record of a directory one level below the root still lists the names of its children. -/
theorem completed_first_tick_caches_reachable (dir : String)
    (options : StatDirWatcherOptions) (L : Listener) (fs : FsNode)
    (hfs : fs.callsSucceed (options.recursive.getD false) true = true) :
    ((∀ w p old, L w p old = []) → fs.kindsKnown (options.recursive.getD false) true = true →
      (tick L (construct dir options) fs)._initialized = true) ∧
    ((tick L (construct dir options) fs)._initialized = false →
      (tick L (construct dir options) fs).cachedStats.entries = []) ∧
    ((tick L (construct dir options) fs)._initialized = true →
      (∀ p, (tick L (construct dir options) fs).cachedStats.has p = true ↔
        p ∈ reachablePaths (options.recursive.getD false) dir fs) ∧
      (options.recursive.getD false = false → spares L "type" → spares L "files" →
        ∀ (rootStat stat : Stats) (children below : FsList) (name : String),
          fs = .directory rootStat children → children.names.Nodup →
          (name, FsNode.directory stat below) ∈ children.toList →
          ∃ r, (tick L (construct dir options) fs).cachedStats.get (dir ++ sep ++ name) = some r ∧
            r.type = .dir ∧ r.files = some below.names ∧
            assocGet "type" r.extra = none ∧ assocGet "files" r.extra = none)) := by
  have hfix := walkPhase_fixed L (construct dir options) fs
  simp only [keptPart, Prod.mk.injEq] at hfix
  obtain ⟨hcache, -, -, hinit, -, -⟩ := hfix
  refine ⟨fun hL hk => tick_completes_quiet L hL _ fs hfs hk, ?_, ?_⟩
  · intro hnot
    simp only [tick] at hnot ⊢
    cases hthrown : (walkPhase L (construct dir options) fs).thrown with
    | some ex =>
      simp only [hthrown, warn]
      rw [hcache]
      rfl
    | none =>
      simp only [hthrown, commit] at hnot
      cases hnot
  intro hdone
  simp only [tick] at hdone ⊢
  cases hthrown : (walkPhase L (construct dir options) fs).thrown with
  | some ex =>
    simp only [hthrown, warn] at hdone
    rw [hinit] at hdone
    cases hdone
  | none =>
    simp only [hthrown, commit]
    obtain ⟨hwalk, hnew, -⟩ := walkPhase_ok hthrown
    rw [show (construct dir options)._dir = dir from rfl] at hwalk hnew
    refine ⟨?_, ?_⟩
    · intro p
      rw [commitCache_has_of_empty _ hcache]
      have hcov := doStatThing_first_walk L fs (startWalk (construct dir options))
        dir true rfl hfs hwalk p
      rw [walked_eq_reachable] at hcov
      rw [hnew, hcov]
      simp [startWalk, construct, JsMap.has_empty]
    · intro hrec hT hF rootStat stat children below name hroot hnd hmem
      subst hroot
      have hunT := doStatThing_unassigned "type" L hT (.directory rootStat children)
        (startWalk (construct dir options)) dir true (unassigned_empty "type")
      have hunF := doStatThing_unassigned "files" L hF (.directory rootStat children)
        (startWalk (construct dir options)) dir true (unassigned_empty "files")
      rw [commitCache_get_of_empty _ hcache, hnew]
      cases hk : (statChildren L (startWalk (construct dir options)) dir children).thrown with
      | some ex =>
        have hfatal := statChildren_thrown_fatal L children _ dir hk
        rw [doStatThing] at hwalk
        simp only [if_true, hk] at hwalk
        rw [catchStat_thrown, if_pos hfatal] at hwalk
        cases hwalk
      | none =>
        have hstate : (doStatThing L (startWalk (construct dir options)) dir true
            (.directory rootStat children)).state =
            (afterLstat L (statChildren L (startWalk (construct dir options)) dir
              children).state dir ((startWalk (construct dir options)).cachedStats.get dir)
              rootStat (.ok ⟨.dir, rootStat, some children.names, none, []⟩)).state := by
          rw [doStatThing]
          simp only [if_true, hk]
          rw [tryCatch_state]
        rw [hstate] at hunT hunF ⊢
        have hkid := statChildren_flat_directory L dir name stat below children
          (startWalk (construct dir options)) hrec rfl hnd hmem hk
        have hroot := afterLstat_core L
          (statChildren L (startWalk (construct dir options)) dir children).state dir
          ((startWalk (construct dir options)).cachedStats.get dir) rootStat
          (.ok ⟨.dir, rootStat, some children.names, none, []⟩) (dir ++ sep ++ name)
          (sep_append_ne dir name)
        rw [hkid] at hroot
        cases hget : (afterLstat L
            (statChildren L (startWalk (construct dir options)) dir children).state dir
            ((startWalk (construct dir options)).cachedStats.get dir) rootStat
            (.ok ⟨.dir, rootStat, some children.names, none, []⟩)).state._newCachedStats.get
            (dir ++ sep ++ name) with
        | none => simp [hget] at hroot
        | some r =>
          simp only [hget, Option.map_some', Option.some.injEq, DirWatcherStats.core,
            Prod.mk.injEq] at hroot
          exact ⟨r, rfl, hroot.1, hroot.2.2.1, hunT _ r hget, hunF _ r hget⟩

/-! ### Failing filesystem calls -/

theorem catchStat_absence (w : StatDirWatcher) {ex : JsError} (h : ex.isAbsence) :
    catchStat w ex = ⟨w, none⟩ := by
  unfold catchStat
  rw [if_neg]
  rintro ⟨h1, h2⟩
  rcases h with h | h
  · exact h1 h
  · exact h2 h

theorem doStatThing_failsSoftly (L : Listener) (w : StatDirWatcher) (filePath : String)
    (recurse : Bool) (node : FsNode) (h : node.failsSoftly w.cachedStats filePath) :
    doStatThing L w filePath recurse node = ⟨w, none⟩ := by
  cases node with
  | lstatFails ex => rw [doStatThing]; exact catchStat_absence w h
  | entry kind stat => cases h
  | symlink stat readlink =>
    cases readlink with
    | ok d => cases h
    | error ex =>
      obtain ⟨hun, hex⟩ := h
      rw [doStatThing]
      simp only [afterLstat, hun, Bool.false_eq_true, if_false, typeSymlink, tryCatch]
      exact catchStat_absence w hex
  | directoryUnreadable stat ex => rw [doStatThing]; exact catchStat_absence w h
  | directory stat children => cases h

theorem statChildren_skips (L : Listener) (dirPath name : String) (node : FsNode)
    (after : FsList) :
    ∀ (before : FsList) (w : StatDirWatcher),
      node.failsSoftly w.cachedStats (dirPath ++ sep ++ name) →
      statChildren L w dirPath (before.append (.cons name node after)) =
        statChildren L w dirPath (before.append after)
  | .nil, w => by
    intro h
    simp only [FsList.append]
    rw [statChildren, doStatThing_failsSoftly L w _ _ node h]
  | .cons n x rest, w => by
    intro h
    simp only [FsList.append]
    rw [statChildren, statChildren]
    have hfix := doStatThing_fixed L x w (dirPath ++ sep ++ n) w._recursive
    split
    · rfl
    · exact statChildren_skips L dirPath name node after rest _
        ((fixed_cache hfix).symm ▸ h)

mutual
theorem hasFatalCall_throws (L : Listener) :
    ∀ (node : FsNode) (w : StatDirWatcher) (filePath : String) (recurse : Bool),
      node.hasFatalCall w.cachedStats w._recursive filePath recurse = true →
      ∃ ex, (doStatThing L w filePath recurse node).thrown = some ex
  | .lstatFails ex, w, filePath, recurse => by
    intro h
    simp only [FsNode.hasFatalCall, decide_eq_true_eq] at h
    exact ⟨ex, by rw [doStatThing, catchStat_thrown, if_pos h]⟩
  | .entry kind stat, w, filePath, recurse => by
    intro h; simp [FsNode.hasFatalCall] at h
  | .symlink stat (.ok d), w, filePath, recurse => by
    intro h; simp [FsNode.hasFatalCall] at h
  | .symlink stat (.error ex), w, filePath, recurse => by
    intro h
    simp only [FsNode.hasFatalCall, Bool.and_eq_true, Bool.not_eq_true', decide_eq_true_eq] at h
    refine ⟨ex, ?_⟩
    rw [doStatThing]
    simp only [afterLstat, h.1, Bool.false_eq_true, if_false, typeSymlink, tryCatch]
    rw [catchStat_thrown, if_pos h.2]
  | .directoryUnreadable stat ex, w, filePath, recurse => by
    intro h
    simp only [FsNode.hasFatalCall, decide_eq_true_eq] at h
    exact ⟨ex, by rw [doStatThing, catchStat_thrown, if_pos h]⟩
  | .directory stat children, w, filePath, recurse => by
    intro h
    simp only [FsNode.hasFatalCall, Bool.and_eq_true] at h
    obtain ⟨hrec, hkids⟩ := h
    subst hrec
    obtain ⟨ex, hex⟩ := hasFatalCallList_throws L children w filePath hkids
    refine ⟨ex, ?_⟩
    rw [doStatThing]
    simp only [if_true, hex]
    rw [catchStat_thrown, if_pos (statChildren_thrown_fatal L children w filePath hex)]
theorem hasFatalCallList_throws (L : Listener) :
    ∀ (l : FsList) (w : StatDirWatcher) (filePath : String),
      l.hasFatalCall w.cachedStats w._recursive filePath = true →
      ∃ ex, (statChildren L w filePath l).thrown = some ex
  | .nil, w, filePath => by
    intro h; simp [FsList.hasFatalCall] at h
  | .cons name node rest, w, filePath => by
    intro h
    simp only [FsList.hasFatalCall, Bool.or_eq_true] at h
    rw [statChildren]
    cases hk : (doStatThing L w (filePath ++ sep ++ name) w._recursive node).thrown with
    | some ex => exact ⟨ex, rfl⟩
    | none =>
      have hfix := doStatThing_fixed L node w (filePath ++ sep ++ name) w._recursive
      rcases h with h | h
      · obtain ⟨ex, hex⟩ := hasFatalCall_throws L node w _ _ h
        rw [hk] at hex
        cases hex
      · have h' : rest.hasFatalCall
            (doStatThing L w (filePath ++ sep ++ name) w._recursive node).state.cachedStats
            (doStatThing L w (filePath ++ sep ++ name) w._recursive node).state._recursive
            filePath = true := by
          rw [fixed_cache hfix, fixed_recursive hfix]; exact h
        exact hasFatalCallList_throws L rest _ filePath h'
end

theorem addToNewCachedStat_ok_of_ticking (w : StatDirWatcher) (h : w._ticking = true)
    (path : String) (obj : Augment) :
    ∃ w', addToNewCachedStat w path obj = .ok w' ∧ w'._ticking = true := by
  unfold addToNewCachedStat
  simp only [h, Bool.not_true, Bool.false_eq_true, if_false]
  split
  · exact ⟨_, rfl, rfl⟩
  · exact ⟨_, rfl, rfl⟩
  · exact ⟨_, rfl, rfl⟩

/-- While `_ticking` is on, the calls of a listener do not throw. -/
theorem runCalls_thrown_of_ticking (calls : List (String × Augment)) :
    ∀ w : StatDirWatcher, w._ticking = true → (runCalls w calls).thrown = none := by
  induction calls with
  | nil => intro w _; rfl
  | cons c rest ih =>
    intro w h
    obtain ⟨path, obj⟩ := c
    obtain ⟨w', hw', ht⟩ := addToNewCachedStat_ok_of_ticking w h path obj
    simp only [runCalls, hw']
    exact ih w' ht

theorem emitPreChange_thrown_of_ticking (L : Listener) (w : StatDirWatcher)
    (h : w._ticking = true) (filePath : String) (old : Option DirWatcherStats) :
    (emitPreChange L w filePath old).thrown = none := by
  simp only [emitPreChange]
  exact runCalls_thrown_of_ticking _ _ h

theorem afterLstat_thrown_of_ticking (L : Listener) (w : StatDirWatcher) (h : w._ticking = true)
    (filePath : String) (old : Option DirWatcherStats) (stat : Stats)
    (typed : Except JsError DirWatcherStats) {ex : JsError}
    (hthrown : (afterLstat L w filePath old stat typed).thrown = some ex) :
    isUnchanged old stat = false ∧ typed = .error ex := by
  unfold afterLstat at hthrown
  cases hun : isUnchanged old stat with
  | true =>
    simp only [hun, if_true] at hthrown
    cases hthrown
  | false =>
    simp only [hun, Bool.false_eq_true, if_false] at hthrown
    cases typed with
    | error e =>
      simp only [Option.some.injEq] at hthrown
      subst hthrown
      exact ⟨rfl, rfl⟩
    | ok r =>
      simp only at hthrown
      have h2 := emitPreChange_thrown_of_ticking L
        { w with _newCachedStats := w._newCachedStats.set filePath r } h filePath old
      rw [h2] at hthrown
      cases hthrown

theorem tryCatch_thrown_inv {o : Outcome} {ex : JsError}
    (h : (tryCatch o).thrown = some ex) : o.thrown = some ex ∧ ex.isFatal := by
  unfold tryCatch at h
  split at h
  · rename_i hnone
    rw [hnone] at h
    cases h
  · rename_i e he
    obtain ⟨h1, h2⟩ := catchStat_thrown_fatal h
    subst h1
    exact ⟨he, h2⟩

theorem fixed_ticking {w w' : StatDirWatcher} (h : fixedPart w' = fixedPart w) :
    w'._ticking = w._ticking := by
  simp only [fixedPart, Prod.mk.injEq] at h
  exact h.2.2.2.2.2.2

mutual
/-- Where an exception leaves a walk made with `_ticking` on: it is the error of one of
the failing calls, or else the error of line 137 raised at an entry without a type. -/
theorem doStatThing_thrown_origin (L : Listener) :
    ∀ (node : FsNode) (w : StatDirWatcher) (filePath : String) (recurse : Bool)
      (ex : JsError), w._ticking = true →
      (doStatThing L w filePath recurse node).thrown = some ex →
      ex ∈ node.fatalErrors w.cachedStats w._recursive filePath recurse ∨
        (ex = untypedError ∧ node.kindsKnown w._recursive recurse = false)
  | .lstatFails e, w, filePath, recurse, ex => by
    intro _ h
    rw [doStatThing] at h
    obtain ⟨h1, h2⟩ := catchStat_thrown_fatal h
    left
    simp [FsNode.fatalErrors, h2, h1]
  | .entry kind stat, w, filePath, recurse, ex => by
    intro ht h
    rw [doStatThing] at h
    obtain ⟨h1, -⟩ := tryCatch_thrown_inv h
    obtain ⟨-, h3⟩ := afterLstat_thrown_of_ticking L w ht _ _ _ _ h1
    right
    cases kind <;> simp [typeEntry] at h3
    exact ⟨h3.symm, by simp [FsNode.kindsKnown]⟩
  | .symlink stat (.ok destination), w, filePath, recurse, ex => by
    intro ht h
    rw [doStatThing] at h
    obtain ⟨h1, -⟩ := tryCatch_thrown_inv h
    obtain ⟨-, h3⟩ := afterLstat_thrown_of_ticking L w ht _ _ _ _ h1
    simp [typeSymlink] at h3
  | .symlink stat (.error e), w, filePath, recurse, ex => by
    intro ht h
    rw [doStatThing] at h
    obtain ⟨h1, h2⟩ := tryCatch_thrown_inv h
    obtain ⟨hun, h3⟩ := afterLstat_thrown_of_ticking L w ht _ _ _ _ h1
    simp only [typeSymlink, Except.error.injEq] at h3
    subst h3
    left
    simp [FsNode.fatalErrors, hun, h2]
  | .directoryUnreadable stat e, w, filePath, recurse, ex => by
    intro _ h
    rw [doStatThing] at h
    obtain ⟨h1, h2⟩ := catchStat_thrown_fatal h
    left
    simp [FsNode.fatalErrors, h2, h1]
  | .directory stat children, w, filePath, recurse, ex => by
    intro ht h
    rw [doStatThing] at h
    cases recurse
    · simp only [Bool.false_eq_true, if_false] at h
      obtain ⟨h1, -⟩ := tryCatch_thrown_inv h
      obtain ⟨-, h3⟩ := afterLstat_thrown_of_ticking L w ht _ _ _ _ h1
      cases h3
    · simp only [if_true] at h
      cases hk : (statChildren L w filePath children).thrown with
      | some e =>
        simp only [hk] at h
        obtain ⟨h1, -⟩ := catchStat_thrown_fatal h
        subst h1
        rcases statChildren_thrown_origin L children w filePath ex ht hk with h4 | h4
        · left
          simp only [FsNode.fatalErrors, if_true]
          exact h4
        · right
          refine ⟨h4.1, ?_⟩
          simp only [FsNode.kindsKnown, Bool.not_true, Bool.false_or]
          exact h4.2
      | none =>
        simp only [hk] at h
        obtain ⟨h1, -⟩ := tryCatch_thrown_inv h
        have hfix := statChildren_fixed L children w filePath
        obtain ⟨-, h3⟩ := afterLstat_thrown_of_ticking L _
          ((fixed_ticking hfix).trans ht) _ _ _ _ h1
        cases h3
theorem statChildren_thrown_origin (L : Listener) :
    ∀ (l : FsList) (w : StatDirWatcher) (filePath : String) (ex : JsError),
      w._ticking = true →
      (statChildren L w filePath l).thrown = some ex →
      ex ∈ l.fatalErrors w.cachedStats w._recursive filePath ∨
        (ex = untypedError ∧ l.kindsKnown w._recursive = false)
  | .nil, w, filePath, ex => by
    intro _ h
    rw [statChildren] at h
    cases h
  | .cons name node rest, w, filePath, ex => by
    intro ht h
    rw [statChildren] at h
    have hfix := doStatThing_fixed L node w (filePath ++ sep ++ name) w._recursive
    cases hk : (doStatThing L w (filePath ++ sep ++ name) w._recursive node).thrown with
    | some e =>
      simp only [hk, Outcome.mk.injEq] at h
      injection h with h
      subst h
      rcases doStatThing_thrown_origin L node w _ _ e ht hk with h4 | h4
      · left
        simp only [FsList.fatalErrors, List.mem_append]
        exact Or.inl h4
      · right
        refine ⟨h4.1, ?_⟩
        simp [FsList.kindsKnown, h4.2]
    | none =>
      simp only [hk] at h
      have hrest := statChildren_thrown_origin L rest
        (doStatThing L w (filePath ++ sep ++ name) w._recursive node).state filePath ex
        ((fixed_ticking hfix).trans ht) h
      rw [fixed_cache hfix, fixed_recursive hfix] at hrest
      rcases hrest with h4 | h4
      · left
        simp only [FsList.fatalErrors, List.mem_append]
        exact Or.inr h4
      · right
        refine ⟨h4.1, ?_⟩
        simp [FsList.kindsKnown, h4.2]
end

/-- Claim C8: a visit whose own `lstat`, `readdir` or `readlink` fails with `ENOENT` or
`EACCES` ends without error and leaves the watcher as it was, so the path enters neither
the pending generation nor the unchanged set, and the walk of the listing goes on as if
the entry were not listed; a call failing with any other code makes the tick leave the
cache and the `change` log untouched and report exactly one warning, which is the error
of one of the failing calls (or, where an entry of none of the seven types is visited,
the error of line 137). -/
theorem absence_is_swallowed_other_failures_abort (L : Listener) (w : StatDirWatcher) :
    (∀ (filePath : String) (recurse : Bool) (node : FsNode),
      node.failsSoftly w.cachedStats filePath →
      doStatThing L w filePath recurse node = ⟨w, none⟩) ∧
    (∀ (dirPath name : String) (node : FsNode) (before after : FsList),
      node.failsSoftly w.cachedStats (dirPath ++ sep ++ name) →
      statChildren L w dirPath (before.append (.cons name node after)) =
        statChildren L w dirPath (before.append after)) ∧
    (∀ fs : FsNode, fs.hasFatalCall w.cachedStats w._recursive w._dir true = true →
      (tick L w fs).cachedStats = w.cachedStats ∧
      (tick L w fs).changeLog = w.changeLog ∧
      ∃ ex, ex.isFatal ∧ (tick L w fs).warnings = w.warnings ++ [ex] ∧
        (ex ∈ fs.fatalErrors w.cachedStats w._recursive w._dir true ∨
          (ex = untypedError ∧ fs.kindsKnown w._recursive true = false))) := by
  refine ⟨?_, ?_, ?_⟩
  · intro filePath recurse node h
    exact doStatThing_failsSoftly L w filePath recurse node h
  · intro dirPath name node before after h
    exact statChildren_skips L dirPath name node after before w h
  · intro fs h
    obtain ⟨ex, hex⟩ := hasFatalCall_throws L fs (startWalk w) w._dir true h
    have hfatal := doStatThing_thrown_fatal L fs (startWalk w) w._dir true hex
    have horigin := doStatThing_thrown_origin L fs (startWalk w) w._dir true ex rfl hex
    have hphase : walkPhase L w fs =
        ⟨(doStatThing L (startWalk w) w._dir true fs).state, some ex⟩ := by
      simp only [walkPhase, hex]
    have hfix := walkPhase_fixed L w fs
    simp only [keptPart, Prod.mk.injEq] at hfix
    obtain ⟨hcache, -, -, -, hlog, hwarn⟩ := hfix
    have htick : tick L w fs = warn (walkPhase L w fs).state ex := by
      simp only [tick, hphase]
    rw [htick]
    exact ⟨hcache, hlog, ex, hfatal, by simp [warn, hwarn], horigin⟩

/-! ### What a commit does, in any state -/

theorem assocGet_eq_none_of_not_mem {α : Type} (k : String) (l : List (String × α))
    (h : k ∉ l.map Prod.fst) : assocGet k l = none := by
  cases hg : assocGet k l with
  | none => rfl
  | some v =>
    have : (assocGet k l).isSome = true := by simp [hg]
    exact absurd ((assocGet_isSome_iff k l).1 this) h

theorem installLoop_get (i : Bool) :
    ∀ (es : List (String × DirWatcherStats)), (es.map Prod.fst).Nodup →
      ∀ (cache : JsMap DirWatcherStats) (log : List ChangeEvent) (p : String),
        (installLoop i es cache log).1.get p =
          match assocGet p es with
          | some v => some v
          | none => cache.get p := by
  intro es
  induction es with
  | nil => intro _ cache log p; rfl
  | cons e rest ih =>
    intro hnd cache log p
    obtain ⟨k, v⟩ := e
    simp only [List.map_cons, List.nodup_cons] at hnd
    simp only [installLoop]
    rw [ih hnd.2, JsMap.get_set]
    by_cases hp : p = k
    · subst hp
      rw [assocGet_eq_none_of_not_mem p rest hnd.1]
      simp [assocGet]
    · have hp' : ¬ k = p := fun e => hp e.symm
      simp [assocGet, hp, hp']

theorem removalLoop_get (unchanged : List String) (pending : JsMap DirWatcherStats)
    (p : String) :
    ∀ (es : List (String × DirWatcherStats)) (cache : JsMap DirWatcherStats)
      (log : List ChangeEvent),
      (removalLoop unchanged pending es cache log).1.get p =
        if p ∈ es.map Prod.fst ∧ p ∉ unchanged ∧ pending.has p = false then none
        else cache.get p := by
  intro es
  induction es with
  | nil => intro cache log; simp [removalLoop]
  | cons e rest ih =>
    intro cache log
    obtain ⟨k, v⟩ := e
    simp only [removalLoop]
    split
    · rename_i hcond
      simp only [Bool.and_eq_true, Bool.not_eq_true', decide_eq_false_iff_not] at hcond
      rw [ih, JsMap.get_delete]
      by_cases hp : p = k
      · subst hp
        simp [hcond.1, hcond.2]
      · simp only [List.map_cons, List.mem_cons, hp, false_or, if_false]
    · rename_i hcond
      simp only [Bool.and_eq_true, Bool.not_eq_true', decide_eq_false_iff_not, not_and,
        Bool.not_eq_false] at hcond
      rw [ih]
      by_cases hp : p = k
      · subst hp
        by_cases hu : p ∈ unchanged
        · simp [hu]
        · simp [hu, hcond hu]
      · simp only [List.map_cons, List.mem_cons, hp, false_or]

/-- The cache a commit leaves, path by path: the pending record when there is one;
otherwise the previous record when the path is in the unchanged set; otherwise nothing. -/
theorem commitCache_get (w : StatDirWatcher) (p : String) :
    (commitCache w).get p =
      match w._newCachedStats.get p with
      | some r => some r
      | none => if p ∈ w._unchangedPaths then w.cachedStats.get p else none := by
  simp only [commitCache]
  rw [removalLoop_get, installLoop_get _ _ w._newCachedStats.nodup]
  show (if _ then none else
    match w._newCachedStats.get p with
    | some v => some v
    | none => w.cachedStats.get p) = _
  cases hget : w._newCachedStats.get p with
  | some r => simp [JsMap.has, hget]
  | none =>
    by_cases hu : p ∈ w._unchangedPaths
    · simp [hu]
    · simp only [hu, not_false_eq_true, JsMap.has, hget, Option.isSome_none, and_self,
        and_true, if_false]
      split
      · rfl
      · rename_i hnot
        have hnone := assocGet_eq_none_of_not_mem p _ hnot
        rw [show assocGet p (installLoop w._initialized w._newCachedStats.entries
          w.cachedStats []).1.entries = (installLoop w._initialized
          w._newCachedStats.entries w.cachedStats []).1.get p from rfl,
          installLoop_get _ _ w._newCachedStats.nodup] at hnone
        rw [show assocGet p w._newCachedStats.entries = w._newCachedStats.get p from rfl,
          hget] at hnone
        exact hnone

theorem installLoop_events :
    ∀ (es : List (String × DirWatcherStats)), (es.map Prod.fst).Nodup →
      ∀ (cache : JsMap DirWatcherStats) (log : List ChangeEvent),
        (installLoop true es cache log).2.map ChangeEvent.args =
          log.map ChangeEvent.args ++
            es.map (fun kv => (kv.1, cache.get kv.1, some kv.2)) := by
  intro es
  induction es with
  | nil => intro _ cache log; simp [installLoop]
  | cons e rest ih =>
    intro hnd cache log
    obtain ⟨k, v⟩ := e
    simp only [List.map_cons, List.nodup_cons] at hnd
    simp only [installLoop, if_true]
    rw [ih hnd.2]
    have hrest : rest.map (fun kv => (kv.1, (cache.set k v).get kv.1, some kv.2)) =
        rest.map (fun kv => (kv.1, cache.get kv.1, some kv.2)) := by
      apply List.map_congr_left
      intro kv hkv
      have hne : ¬ kv.1 = k := fun e => hnd.1 (e ▸ List.mem_map_of_mem Prod.fst hkv)
      simp [JsMap.get_set, hne]
    rw [hrest]
    simp [ChangeEvent.args]

theorem removalLoop_events (unchanged : List String) (pending : JsMap DirWatcherStats) :
    ∀ (es : List (String × DirWatcherStats)) (cache : JsMap DirWatcherStats)
      (log : List ChangeEvent),
      (removalLoop unchanged pending es cache log).2.map ChangeEvent.args =
        log.map ChangeEvent.args ++
          (es.filter (fun e => !(decide (e.1 ∈ unchanged)) && !(pending.has e.1))).map
            (fun kv => (kv.1, some kv.2, none)) := by
  intro es
  induction es with
  | nil => intro cache log; simp [removalLoop]
  | cons e rest ih =>
    intro cache log
    obtain ⟨k, v⟩ := e
    simp only [removalLoop]
    split
    · rename_i hcond
      rw [ih, List.filter_cons]
      simp only [hcond, if_true]
      simp [ChangeEvent.args]
    · rename_i hcond
      rw [ih, List.filter_cons]
      simp only [hcond, Bool.false_eq_true, if_false]

theorem assocSet_filter {α : Type} (q : String → Bool) (k : String) (v : α)
    (hq : q k = false) :
    ∀ l : List (String × α),
      (assocSet k v l).filter (fun e => q e.1) = l.filter (fun e => q e.1) := by
  intro l
  induction l with
  | nil => simp [assocSet, hq]
  | cons hd tl ih =>
    obtain ⟨a, b⟩ := hd
    by_cases hak : a = k
    · subst hak
      simp [assocSet, hq]
    · simp only [assocSet, hak, if_false, List.filter_cons]
      rw [ih]

theorem installLoop_entries_filter (i : Bool) (q : String → Bool) :
    ∀ (es : List (String × DirWatcherStats)), (∀ kv ∈ es, q kv.1 = false) →
      ∀ (cache : JsMap DirWatcherStats) (log : List ChangeEvent),
        (installLoop i es cache log).1.entries.filter (fun e => q e.1) =
          cache.entries.filter (fun e => q e.1) := by
  intro es
  induction es with
  | nil => intro _ cache log; rfl
  | cons e rest ih =>
    intro hq cache log
    obtain ⟨k, v⟩ := e
    simp only [installLoop]
    rw [ih (fun kv hkv => hq kv (List.mem_cons_of_mem _ hkv))]
    exact assocSet_filter q k v (hq (k, v) (List.mem_cons_self _ _)) cache.entries

/-- The `change` events of a commit, in any state: for a watcher that completed a tick, one
event per pending entry with the previously cached record or none and the new record; then
one event per cached entry that is neither in the unchanged set nor pending, with the
cached record and no new record. -/
theorem commitEvents_args (w : StatDirWatcher) :
    (commitEvents w).map ChangeEvent.args =
      (if w._initialized then
          w._newCachedStats.entries.map (fun kv => (kv.1, w.cachedStats.get kv.1, some kv.2))
        else []) ++
      (w.cachedStats.entries.filter
          (fun e => !(decide (e.1 ∈ w._unchangedPaths)) && !(w._newCachedStats.has e.1))).map
        (fun kv => (kv.1, some kv.2, none)) := by
  simp only [commitEvents]
  rw [removalLoop_events]
  rw [installLoop_entries_filter w._initialized
    (fun k => !(decide (k ∈ w._unchangedPaths)) && !(w._newCachedStats.has k))]
  · cases hi : w._initialized
    · rw [installLoop_log_uninitialized]
      simp
    · rw [installLoop_events _ w._newCachedStats.nodup]
      simp
  · intro kv hkv
    have : w._newCachedStats.has kv.1 = true :=
      (JsMap.has_iff_mem_keys _ _).2 (List.mem_map_of_mem Prod.fst hkv)
    simp [this]

/-! ### The per-tick state after a tick -/

/-- A tick that commits leaves the pending generation and the unchanged set empty. -/
theorem tick_clears_when_committed (L : Listener) (w : StatDirWatcher) (fs : FsNode)
    (h : (walkPhase L w fs).thrown = none) :
    (tick L w fs)._newCachedStats = JsMap.empty ∧ (tick L w fs)._unchangedPaths = [] := by
  simp only [tick, h, commit, and_self]

/-- With `_ticking` off, `addToNewCachedStat` throws and registers nothing. -/
theorem addToNewCachedStat_throws_when_idle (w : StatDirWatcher) (h : w._ticking = false)
    (path : String) (obj : Augment) : addToNewCachedStat w path obj = .error usageError := by
  simp [addToNewCachedStat, h]

/-- After a tick whose walk returned, `_ticking` is off. -/
theorem tick_idle_when_walk_returns (L : Listener) (w : StatDirWatcher) (fs : FsNode)
    (h : (doStatThing L (startWalk w) w._dir true fs).thrown = none) :
    (tick L w fs)._ticking = false := by
  simp only [tick, walkPhase, h]
  cases awaitAll (doStatThing L (startWalk w) w._dir true
    fs).state._externalStatPropertyPromises <;> simp [warn, commit]

/-- After a tick whose walk threw, `_ticking` is still on. -/
theorem tick_ticking_when_walk_throws (L : Listener) (w : StatDirWatcher) (fs : FsNode)
    (ex : JsError) (h : (doStatThing L (startWalk w) w._dir true fs).thrown = some ex) :
    (tick L w fs)._ticking = true := by
  have hfix := doStatThing_fixed L fs (startWalk w) w._dir true
  simp only [fixedPart, Prod.mk.injEq] at hfix
  simp only [tick, walkPhase, h, warn]
  exact hfix.2.2.2.2.2.2

/-! ### Two ticks over the same tree -/

theorem addToNewCachedStat_unchanged {w w' : StatDirWatcher} {path : String} {obj : Augment}
    (h : addToNewCachedStat w path obj = .ok w') : w'._unchangedPaths = w._unchangedPaths := by
  unfold addToNewCachedStat at h
  split at h
  · cases h
  · split at h <;> (injection h with h; subst h; rfl)

theorem runCalls_unchanged (calls : List (String × Augment)) :
    ∀ w : StatDirWatcher, (runCalls w calls).state._unchangedPaths = w._unchangedPaths := by
  induction calls with
  | nil => intro w; rfl
  | cons c rest ih =>
    intro w
    obtain ⟨path, obj⟩ := c
    simp only [runCalls]
    split
    · rfl
    · rename_i w' hw
      rw [ih w', addToNewCachedStat_unchanged hw]

/-- The three ways lines 117-140 can end. -/
theorem afterLstat_cases (L : Listener) (w : StatDirWatcher) (filePath : String)
    (old : Option DirWatcherStats) (stat : Stats) (typed : Except JsError DirWatcherStats) :
    (isUnchanged old stat = true ∧
      (afterLstat L w filePath old stat typed).thrown = none ∧
      (afterLstat L w filePath old stat typed).state._newCachedStats = w._newCachedStats ∧
      (afterLstat L w filePath old stat typed).state.preChangeLog = w.preChangeLog ∧
      (afterLstat L w filePath old stat typed).state._externalStatPropertyPromises =
        w._externalStatPropertyPromises ∧
      ∀ q, q ∈ (afterLstat L w filePath old stat typed).state._unchangedPaths ↔
        (q ∈ w._unchangedPaths ∨ q = filePath)) ∨
    (isUnchanged old stat = false ∧ ∃ ex, typed = .error ex ∧
      afterLstat L w filePath old stat typed = ⟨w, some ex⟩) ∨
    (isUnchanged old stat = false ∧ ∃ r, typed = .ok r ∧
      ((afterLstat L w filePath old stat typed).state._newCachedStats.get filePath).map
        DirWatcherStats.core = some r.core ∧
      (afterLstat L w filePath old stat typed).state._unchangedPaths = w._unchangedPaths ∧
      ∀ q, (afterLstat L w filePath old stat typed).state._newCachedStats.has q = true ↔
        (q = filePath ∨ w._newCachedStats.has q = true)) := by
  cases hun : isUnchanged old stat with
  | true =>
    left
    simp only [afterLstat, hun, if_true, true_and]
    intro q
    by_cases hmem : filePath ∈ w._unchangedPaths
    · simp only [hmem, if_true]
      constructor
      · exact Or.inl
      · rintro (h | h)
        · exact h
        · exact h ▸ hmem
    · simp [hmem]
  | false =>
    right
    cases typed with
    | error ex =>
      left
      exact ⟨rfl, ex, rfl, by simp [afterLstat, hun]⟩
    | ok r =>
      right
      refine ⟨rfl, r, rfl, ?_, ?_, ?_⟩
      · simp only [afterLstat, hun, Bool.false_eq_true, if_false, emitPreChange]
        rw [runCalls_core]
        simp [JsMap.get_set]
      · simp only [afterLstat, hun, Bool.false_eq_true, if_false, emitPreChange]
        rw [runCalls_unchanged]
      · intro q
        simp only [afterLstat, hun, Bool.false_eq_true, if_false]
        rw [emitPreChange_has, JsMap.has_set]

theorem afterLstat_other (L : Listener) (w : StatDirWatcher) (filePath : String)
    (old : Option DirWatcherStats) (stat : Stats) (typed : Except JsError DirWatcherStats)
    (q : String) (hq : q ≠ filePath) :
    ((afterLstat L w filePath old stat typed).state._newCachedStats.get q).map
        DirWatcherStats.core = (w._newCachedStats.get q).map DirWatcherStats.core ∧
    (q ∈ (afterLstat L w filePath old stat typed).state._unchangedPaths ↔
      q ∈ w._unchangedPaths) := by
  refine ⟨afterLstat_core L w filePath old stat typed q hq, ?_⟩
  rcases afterLstat_cases L w filePath old stat typed with h | h | h
  · rw [h.2.2.2.2.2 q]
    simp [hq]
  · obtain ⟨-, ex, -, h⟩ := h
    rw [h]
  · obtain ⟨-, r, -, -, h, -⟩ := h
    rw [h]

mutual
/-- A walk leaves alone the pending record and the unchanged mark of every path that it
does not visit. -/
theorem doStatThing_other (L : Listener) :
    ∀ (node : FsNode) (w : StatDirWatcher) (filePath : String) (recurse : Bool) (q : String),
      q ∉ node.walked w._recursive filePath recurse →
      ((doStatThing L w filePath recurse node).state._newCachedStats.get q).map
          DirWatcherStats.core = (w._newCachedStats.get q).map DirWatcherStats.core ∧
      (q ∈ (doStatThing L w filePath recurse node).state._unchangedPaths ↔
        q ∈ w._unchangedPaths)
  | .lstatFails ex, w, filePath, recurse, q => by
    intro _
    rw [doStatThing, catchStat_state]
    exact ⟨rfl, Iff.rfl⟩
  | .entry kind stat, w, filePath, recurse, q => by
    intro hq
    simp only [FsNode.walked, List.mem_singleton] at hq
    rw [doStatThing, tryCatch_state]
    exact afterLstat_other L w filePath _ stat _ q hq
  | .symlink stat readlink, w, filePath, recurse, q => by
    intro hq
    simp only [FsNode.walked, List.mem_singleton] at hq
    rw [doStatThing, tryCatch_state]
    exact afterLstat_other L w filePath _ stat _ q hq
  | .directoryUnreadable stat ex, w, filePath, recurse, q => by
    intro _
    rw [doStatThing, catchStat_state]
    exact ⟨rfl, Iff.rfl⟩
  | .directory stat children, w, filePath, recurse, q => by
    intro hq
    simp only [FsNode.walked, List.mem_cons, not_or] at hq
    rw [doStatThing]
    have hkids : ((if recurse then statChildren L w filePath children
        else (⟨w, none⟩ : Outcome)).state._newCachedStats.get q).map DirWatcherStats.core =
          (w._newCachedStats.get q).map DirWatcherStats.core ∧
        (q ∈ (if recurse then statChildren L w filePath children
          else (⟨w, none⟩ : Outcome)).state._unchangedPaths ↔ q ∈ w._unchangedPaths) := by
      cases recurse
      · exact ⟨rfl, Iff.rfl⟩
      · simp only [if_true] at hq ⊢
        exact statChildren_other L children w filePath q hq.2
    split
    · rw [catchStat_state]
      exact hkids
    · rw [tryCatch_state]
      have hroot := afterLstat_other L (if recurse then statChildren L w filePath children
        else (⟨w, none⟩ : Outcome)).state filePath (w.cachedStats.get filePath) stat
        (.ok ⟨.dir, stat, some children.names, none, []⟩) q hq.1
      exact ⟨hroot.1.trans hkids.1, hroot.2.trans hkids.2⟩
theorem statChildren_other (L : Listener) :
    ∀ (l : FsList) (w : StatDirWatcher) (filePath : String) (q : String),
      q ∉ l.walked w._recursive filePath →
      ((statChildren L w filePath l).state._newCachedStats.get q).map
          DirWatcherStats.core = (w._newCachedStats.get q).map DirWatcherStats.core ∧
      (q ∈ (statChildren L w filePath l).state._unchangedPaths ↔ q ∈ w._unchangedPaths)
  | .nil, w, filePath, q => by
    intro _
    rw [statChildren]
    exact ⟨rfl, Iff.rfl⟩
  | .cons name node rest, w, filePath, q => by
    intro hq
    simp only [FsList.walked, List.mem_append, not_or] at hq
    rw [statChildren]
    have hfix := doStatThing_fixed L node w (filePath ++ sep ++ name) w._recursive
    have hhead := doStatThing_other L node w (filePath ++ sep ++ name) w._recursive q hq.1
    split
    · exact hhead
    · have hrest := statChildren_other L rest
        (doStatThing L w (filePath ++ sep ++ name) w._recursive node).state filePath q
        (by rw [fixed_recursive hfix]; exact hq.2)
      exact ⟨hrest.1.trans hhead.1, hrest.2.trans hhead.2⟩
end

theorem known_congr (cache : JsMap DirWatcherStats) (s s' : StatDirWatcher) (p : String)
    (stat : Stats)
    (hget : (s'._newCachedStats.get p).map DirWatcherStats.core =
      (s._newCachedStats.get p).map DirWatcherStats.core)
    (hun : p ∈ s'._unchangedPaths ↔ p ∈ s._unchangedPaths) :
    known cache s p stat → known cache s' p stat := by
  unfold known
  cases h : s._newCachedStats.get p with
  | none =>
    cases h' : s'._newCachedStats.get p with
    | none =>
      intro hk
      exact ⟨hun.2 hk.1, hk.2⟩
    | some r' => simp [h, h'] at hget
  | some r =>
    cases h' : s'._newCachedStats.get p with
    | none => simp [h, h'] at hget
    | some r' =>
      simp only [h, h', Option.map_some', Option.some.injEq, DirWatcherStats.core,
        Prod.mk.injEq] at hget
      intro hk
      simp only [] at hk ⊢
      rw [hget.2.1]
      exact hk

mutual
theorem settled_mono (K K' : String → Stats → Prop) (r : Bool) :
    ∀ (node : FsNode) (path : String) (recurse : Bool),
      (∀ q ∈ node.walked r path recurse, ∀ stat, K q stat → K' q stat) →
      node.settled K r path recurse → node.settled K' r path recurse
  | .lstatFails ex, path, recurse => by
    intro _ h; exact h
  | .entry kind stat, path, recurse => by
    intro hK h
    exact hK path (by simp [FsNode.walked]) stat h
  | .symlink stat (.ok d), path, recurse => by
    intro hK h
    exact hK path (by simp [FsNode.walked]) stat h
  | .symlink stat (.error ex), path, recurse => by
    intro hK h
    rcases h with h | h
    · exact Or.inl (hK path (by simp [FsNode.walked]) stat h)
    · exact Or.inr h
  | .directoryUnreadable stat ex, path, recurse => by
    intro _ h; exact h
  | .directory stat children, path, recurse => by
    intro hK h
    simp only [FsNode.settled] at h ⊢
    refine ⟨?_, hK path (by simp [FsNode.walked]) stat h.2⟩
    intro hrec
    subst hrec
    exact settledList_mono K K' r children path
      (fun q hq => hK q (by simp [FsNode.walked, hq])) (h.1 rfl)
theorem settledList_mono (K K' : String → Stats → Prop) (r : Bool) :
    ∀ (l : FsList) (dirPath : String),
      (∀ q ∈ l.walked r dirPath, ∀ stat, K q stat → K' q stat) →
      l.settled K r dirPath → l.settled K' r dirPath
  | .nil, dirPath => by
    intro _ _; trivial
  | .cons name node rest, dirPath => by
    intro hK h
    simp only [FsList.settled] at h ⊢
    exact ⟨settled_mono K K' r node _ r
        (fun q hq => hK q (by simp [FsList.walked, hq])) h.1,
      settledList_mono K K' r rest dirPath
        (fun q hq => hK q (by simp [FsList.walked, hq])) h.2⟩
end

mutual
theorem marked_mono (K K' : String → Stats → Prop) (r : Bool) (q : String) :
    ∀ (node : FsNode) (path : String) (recurse : Bool),
      (∀ p ∈ node.walked r path recurse, ∀ stat, K p stat → K' p stat) →
      node.marked K r path recurse q → node.marked K' r path recurse q
  | .lstatFails ex, path, recurse => by
    intro _ h; exact h
  | .entry kind stat, path, recurse => by
    intro hK h
    exact ⟨h.1, hK path (by simp [FsNode.walked]) stat h.2⟩
  | .symlink stat readlink, path, recurse => by
    intro hK h
    exact ⟨h.1, hK path (by simp [FsNode.walked]) stat h.2⟩
  | .directoryUnreadable stat ex, path, recurse => by
    intro _ h; exact h
  | .directory stat children, path, recurse => by
    intro hK h
    simp only [FsNode.marked] at h ⊢
    rcases h with ⟨hrec, h⟩ | h
    · subst hrec
      exact Or.inl ⟨rfl, markedList_mono K K' r q children path
        (fun p hp => hK p (by simp [FsNode.walked, hp])) h⟩
    · exact Or.inr ⟨h.1, hK path (by simp [FsNode.walked]) stat h.2⟩
theorem markedList_mono (K K' : String → Stats → Prop) (r : Bool) (q : String) :
    ∀ (l : FsList) (dirPath : String),
      (∀ p ∈ l.walked r dirPath, ∀ stat, K p stat → K' p stat) →
      l.marked K r dirPath q → l.marked K' r dirPath q
  | .nil, dirPath => by
    intro _ h; exact h
  | .cons name node rest, dirPath => by
    intro hK h
    simp only [FsList.marked] at h ⊢
    rcases h with h | h
    · exact Or.inl (marked_mono K K' r q node _ r
        (fun p hp => hK p (by simp [FsList.walked, hp])) h)
    · exact Or.inr (markedList_mono K K' r q rest dirPath
        (fun p hp => hK p (by simp [FsList.walked, hp])) h)
end

theorem isAbsence_of_not_fatal {ex : JsError} (h : ¬ ex.isFatal) : ex.isAbsence := by
  unfold JsError.isFatal at h
  unfold JsError.isAbsence
  by_cases h1 : ex.code = some "ENOENT"
  · exact Or.inl h1
  · by_cases h2 : ex.code = some "EACCES"
    · exact Or.inr h2
    · exact absurd ⟨h1, h2⟩ h

/-- One visit past `lstat`, at a path with no pending record and no unchanged mark yet. -/
theorem visit_settles (L : Listener) (s : StatDirWatcher) (cache : JsMap DirWatcherStats)
    (filePath : String) (stat : Stats) (typed : Except JsError DirWatcherStats)
    (htyped : ∀ r, typed = .ok r → r.stat = stat)
    (hnew : s._newCachedStats.get filePath = none)
    (hthrown : (tryCatch (afterLstat L s filePath (cache.get filePath) stat typed)).thrown
      = none) :
    (known cache (tryCatch (afterLstat L s filePath (cache.get filePath) stat typed)).state
        filePath stat ∨ ∃ ex, typed = .error ex ∧ ex.isAbsence) ∧
    ∀ q, ((tryCatch (afterLstat L s filePath (cache.get filePath) stat
        typed)).state._newCachedStats.has q = true ∨
        q ∈ (tryCatch (afterLstat L s filePath (cache.get filePath) stat
          typed)).state._unchangedPaths) →
      (s._newCachedStats.has q = true ∨ q ∈ s._unchangedPaths) ∨
      (q = filePath ∧
        known cache (tryCatch (afterLstat L s filePath (cache.get filePath) stat typed)).state
          filePath stat) := by
  rw [tryCatch_state]
  rcases afterLstat_cases L s filePath (cache.get filePath) stat typed with h | h | h
  · obtain ⟨hun, -, hsame, -, -, hmem⟩ := h
    have hk : known cache (afterLstat L s filePath (cache.get filePath) stat typed).state
        filePath stat := by
      unfold known
      rw [hsame, hnew]
      exact ⟨(hmem filePath).2 (Or.inr rfl), hun⟩
    refine ⟨Or.inl hk, ?_⟩
    intro q hq
    rw [hsame, hmem q] at hq
    rcases hq with hq | hq | hq
    · exact Or.inl (Or.inl hq)
    · exact Or.inl (Or.inr hq)
    · exact Or.inr ⟨hq, hk⟩
  · obtain ⟨-, ex, htyp, hout⟩ := h
    rw [hout] at hthrown ⊢
    have hab : ex.isAbsence := by
      apply isAbsence_of_not_fatal
      intro hf
      simp only [tryCatch] at hthrown
      rw [catchStat_thrown, if_pos hf] at hthrown
      cases hthrown
    exact ⟨Or.inr ⟨ex, htyp, hab⟩, fun q hq => Or.inl hq⟩
  · obtain ⟨-, r, htyp, hget, hunch, hhas⟩ := h
    have hk : known cache (afterLstat L s filePath (cache.get filePath) stat typed).state
        filePath stat := by
      unfold known
      cases hg : (afterLstat L s filePath (cache.get filePath) stat
          typed).state._newCachedStats.get filePath with
      | none => simp [hg] at hget
      | some r' =>
        simp only [hg, Option.map_some', Option.some.injEq, DirWatcherStats.core,
          Prod.mk.injEq] at hget
        simp only []
        rw [hget.2.1, htyped r htyp]
    refine ⟨Or.inl hk, ?_⟩
    intro q hq
    rw [hhas q, hunch] at hq
    rcases hq with (hq | hq) | hq
    · exact Or.inr ⟨hq, hk⟩
    · exact Or.inl (Or.inl hq)
    · exact Or.inl (Or.inr hq)

theorem get_none_of_core_none {m m' : JsMap DirWatcherStats} {q : String}
    (h : (m'.get q).map DirWatcherStats.core = (m.get q).map DirWatcherStats.core)
    (hnone : m.get q = none) : m'.get q = none := by
  rw [hnone] at h
  cases hg : m'.get q with
  | none => rfl
  | some r => simp [hg] at h

theorem not_absence_of_no_code {ex : JsError} (h : ex.code = none) : ¬ ex.isAbsence := by
  unfold JsError.isAbsence
  rw [h]
  simp

mutual
/-- The first of two walks: where it does not throw, every visited entry ends up known. -/
theorem doStatThing_settles (L : Listener) :
    ∀ (node : FsNode) (w : StatDirWatcher) (filePath : String) (recurse : Bool),
      (node.walked w._recursive filePath recurse).Nodup →
      (∀ q ∈ node.walked w._recursive filePath recurse,
        w._newCachedStats.get q = none ∧ q ∉ w._unchangedPaths) →
      (doStatThing L w filePath recurse node).thrown = none →
      node.settled (known w.cachedStats (doStatThing L w filePath recurse node).state)
        w._recursive filePath recurse ∧
      ∀ q, ((doStatThing L w filePath recurse node).state._newCachedStats.has q = true ∨
          q ∈ (doStatThing L w filePath recurse node).state._unchangedPaths) →
        (w._newCachedStats.has q = true ∨ q ∈ w._unchangedPaths) ∨
        node.marked (known w.cachedStats (doStatThing L w filePath recurse node).state)
          w._recursive filePath recurse q
  | .lstatFails ex, w, filePath, recurse => by
    intro _ _ hthrown
    rw [doStatThing] at hthrown ⊢
    rw [catchStat_state]
    refine ⟨?_, fun q hq => Or.inl hq⟩
    apply isAbsence_of_not_fatal
    intro hf
    rw [catchStat_thrown, if_pos hf] at hthrown
    cases hthrown
  | .entry kind stat, w, filePath, recurse => by
    intro _ hfresh hthrown
    rw [doStatThing] at hthrown ⊢
    have hv := visit_settles L w w.cachedStats filePath stat (typeEntry kind stat)
      (by intro r hr; cases kind <;> simp [typeEntry] at hr <;> (subst hr; rfl))
      (hfresh filePath (by simp [FsNode.walked])).1 hthrown
    have hk : known w.cachedStats (tryCatch (afterLstat L w filePath
        (w.cachedStats.get filePath) stat (typeEntry kind stat))).state filePath stat := by
      rcases hv.1 with h | ⟨ex, hex, hab⟩
      · exact h
      · cases kind <;> simp [typeEntry] at hex
        exact absurd hab (not_absence_of_no_code (by rw [← hex]; rfl))
    exact ⟨hk, hv.2⟩
  | .symlink stat (.ok destination), w, filePath, recurse => by
    intro _ hfresh hthrown
    rw [doStatThing] at hthrown ⊢
    have hv := visit_settles L w w.cachedStats filePath stat (typeSymlink stat (.ok destination))
      (by intro r hr; simp [typeSymlink] at hr; subst hr; rfl)
      (hfresh filePath (by simp [FsNode.walked])).1 hthrown
    have hk : known w.cachedStats (tryCatch (afterLstat L w filePath
        (w.cachedStats.get filePath) stat (typeSymlink stat (.ok destination)))).state
        filePath stat := by
      rcases hv.1 with h | ⟨ex, hex, _⟩
      · exact h
      · simp [typeSymlink] at hex
    exact ⟨hk, hv.2⟩
  | .symlink stat (.error ex), w, filePath, recurse => by
    intro _ hfresh hthrown
    rw [doStatThing] at hthrown ⊢
    have hv := visit_settles L w w.cachedStats filePath stat (typeSymlink stat (.error ex))
      (by intro r hr; simp [typeSymlink] at hr)
      (hfresh filePath (by simp [FsNode.walked])).1 hthrown
    refine ⟨?_, hv.2⟩
    rcases hv.1 with h | ⟨ex', hex, hab⟩
    · exact Or.inl h
    · simp only [typeSymlink, Except.error.injEq] at hex
      exact Or.inr (hex ▸ hab)
  | .directoryUnreadable stat ex, w, filePath, recurse => by
    intro _ _ hthrown
    rw [doStatThing] at hthrown ⊢
    rw [catchStat_state]
    refine ⟨?_, fun q hq => Or.inl hq⟩
    apply isAbsence_of_not_fatal
    intro hf
    rw [catchStat_thrown, if_pos hf] at hthrown
    cases hthrown
  | .directory stat children, w, filePath, recurse => by
    intro hnd hfresh hthrown
    rw [doStatThing] at hthrown ⊢
    cases recurse
    · simp only [Bool.false_eq_true, if_false] at hthrown ⊢
      have hv := visit_settles L w w.cachedStats filePath stat
        (.ok ⟨.dir, stat, some children.names, none, []⟩)
        (by intro r hr; injection hr with hr; subst hr; rfl)
        (hfresh filePath (by simp [FsNode.walked])).1 hthrown
      have hk : known w.cachedStats (tryCatch (afterLstat L w filePath
          (w.cachedStats.get filePath) stat
          (.ok ⟨.dir, stat, some children.names, none, []⟩))).state filePath stat := by
        rcases hv.1 with h | ⟨ex, hex, _⟩
        · exact h
        · cases hex
      refine ⟨?_, ?_⟩
      · rw [FsNode.settled]
        exact ⟨fun h => absurd h (by decide), hk⟩
      · intro q hq
        rw [FsNode.marked]
        rcases hv.2 q hq with h | h
        · exact Or.inl h
        · exact Or.inr (Or.inr h)
    · simp only [if_true] at hthrown ⊢
      simp only [FsNode.walked, if_true, List.nodup_cons] at hnd
      have hfreshKids : ∀ q ∈ children.walked w._recursive filePath,
          w._newCachedStats.get q = none ∧ q ∉ w._unchangedPaths :=
        fun q hq => hfresh q (by simp [FsNode.walked, hq])
      cases hk : (statChildren L w filePath children).thrown with
      | some ex =>
        have hfatal := statChildren_thrown_fatal L children w filePath hk
        simp only [hk] at hthrown
        rw [catchStat_thrown, if_pos hfatal] at hthrown
        cases hthrown
      | none =>
        simp only [hk] at hthrown ⊢
        obtain ⟨hset, hcov⟩ := statChildren_settles L children w filePath hnd.2 hfreshKids hk
        have hother := statChildren_other L children w filePath filePath hnd.1
        have hnewRoot : (statChildren L w filePath children).state._newCachedStats.get
            filePath = none :=
          get_none_of_core_none hother.1 (hfresh filePath (by simp [FsNode.walked])).1
        have hv := visit_settles L (statChildren L w filePath children).state w.cachedStats
          filePath stat (.ok ⟨.dir, stat, some children.names, none, []⟩)
          (by intro r hr; injection hr with hr; subst hr; rfl) hnewRoot hthrown
        have hlift : ∀ q ∈ children.walked w._recursive filePath, ∀ st,
            known w.cachedStats (statChildren L w filePath children).state q st →
            known w.cachedStats (tryCatch (afterLstat L
              (statChildren L w filePath children).state filePath
              (w.cachedStats.get filePath) stat
              (.ok ⟨.dir, stat, some children.names, none, []⟩))).state q st := by
          intro q hq st
          have hne : q ≠ filePath := fun e => hnd.1 (e ▸ hq)
          have ho := afterLstat_other L (statChildren L w filePath children).state filePath
            (w.cachedStats.get filePath) stat
            (.ok ⟨.dir, stat, some children.names, none, []⟩) q hne
          exact known_congr _ _ _ q st (by rw [tryCatch_state]; exact ho.1)
            (by rw [tryCatch_state]; exact ho.2)
        have hkroot : known w.cachedStats (tryCatch (afterLstat L
            (statChildren L w filePath children).state filePath
            (w.cachedStats.get filePath) stat
            (.ok ⟨.dir, stat, some children.names, none, []⟩))).state filePath stat := by
          rcases hv.1 with h | ⟨ex, hex, _⟩
          · exact h
          · cases hex
        refine ⟨?_, ?_⟩
        · rw [FsNode.settled]
          exact ⟨fun _ => settledList_mono _ _ _ children filePath hlift hset, hkroot⟩
        · intro q hq
          rw [FsNode.marked]
          rcases hv.2 q hq with h | h
          · rcases hcov q h with h | h
            · exact Or.inl h
            · exact Or.inr (Or.inl ⟨rfl, markedList_mono _ _ _ q children filePath hlift h⟩)
          · exact Or.inr (Or.inr h)
theorem statChildren_settles (L : Listener) :
    ∀ (l : FsList) (w : StatDirWatcher) (filePath : String),
      (l.walked w._recursive filePath).Nodup →
      (∀ q ∈ l.walked w._recursive filePath,
        w._newCachedStats.get q = none ∧ q ∉ w._unchangedPaths) →
      (statChildren L w filePath l).thrown = none →
      l.settled (known w.cachedStats (statChildren L w filePath l).state)
        w._recursive filePath ∧
      ∀ q, ((statChildren L w filePath l).state._newCachedStats.has q = true ∨
          q ∈ (statChildren L w filePath l).state._unchangedPaths) →
        (w._newCachedStats.has q = true ∨ q ∈ w._unchangedPaths) ∨
        l.marked (known w.cachedStats (statChildren L w filePath l).state)
          w._recursive filePath q
  | .nil, w, filePath => by
    intro _ _ _
    rw [statChildren]
    exact ⟨trivial, fun q hq => Or.inl hq⟩
  | .cons name node rest, w, filePath => by
    intro hnd hfresh hthrown
    simp only [FsList.walked, List.nodup_append] at hnd
    rw [statChildren] at hthrown ⊢
    cases hk : (doStatThing L w (filePath ++ sep ++ name) w._recursive node).thrown with
    | some ex => simp [hk] at hthrown
    | none =>
      simp only [hk] at hthrown ⊢
      have hfix := doStatThing_fixed L node w (filePath ++ sep ++ name) w._recursive
      obtain ⟨hsetH, hcovH⟩ := doStatThing_settles L node w (filePath ++ sep ++ name)
        w._recursive hnd.1 (fun q hq => hfresh q (by simp [FsList.walked, hq])) hk
      have hfreshR : ∀ q ∈ rest.walked w._recursive filePath,
          (doStatThing L w (filePath ++ sep ++ name) w._recursive
            node).state._newCachedStats.get q = none ∧
          q ∉ (doStatThing L w (filePath ++ sep ++ name) w._recursive
            node).state._unchangedPaths := by
        intro q hq
        have hnot : q ∉ node.walked w._recursive (filePath ++ sep ++ name) w._recursive :=
          fun h => hnd.2.2 h hq
        have ho := doStatThing_other L node w (filePath ++ sep ++ name) w._recursive q hnot
        have hf := hfresh q (by simp [FsList.walked, hq])
        exact ⟨get_none_of_core_none ho.1 hf.1, fun h => hf.2 (ho.2.1 h)⟩
      have hrest := statChildren_settles L rest
        (doStatThing L w (filePath ++ sep ++ name) w._recursive node).state filePath
      rw [fixed_recursive hfix, fixed_cache hfix] at hrest
      obtain ⟨hsetR, hcovR⟩ := hrest hnd.2.1 hfreshR hthrown
      have hlift : ∀ q ∈ node.walked w._recursive (filePath ++ sep ++ name) w._recursive,
          ∀ st, known w.cachedStats
            (doStatThing L w (filePath ++ sep ++ name) w._recursive node).state q st →
          known w.cachedStats (statChildren L
            (doStatThing L w (filePath ++ sep ++ name) w._recursive node).state filePath
            rest).state q st := by
        intro q hq st
        have hnot : q ∉ rest.walked (doStatThing L w (filePath ++ sep ++ name) w._recursive
            node).state._recursive filePath := by
          rw [fixed_recursive hfix]
          exact fun h => hnd.2.2 hq h
        have ho := statChildren_other L rest _ filePath q hnot
        exact known_congr _ _ _ q st ho.1 ho.2
      refine ⟨?_, ?_⟩
      · rw [FsList.settled]
        exact ⟨settled_mono _ _ _ node _ _ hlift hsetH, hsetR⟩
      · intro q hq
        rw [FsList.marked]
        rcases hcovR q hq with h | h
        · rcases hcovH q h with h | h
          · exact Or.inl h
          · exact Or.inr (Or.inl (marked_mono _ _ _ q node _ _ hlift h))
        · exact Or.inr (Or.inr h)
end

/-- One visit past `lstat` at a path whose cached record is up to date, or whose
`readlink` fails with `ENOENT` or `EACCES`: nothing but the unchanged mark. -/
theorem visit_idle (L : Listener) (s : StatDirWatcher) (cache : JsMap DirWatcherStats)
    (filePath : String) (stat : Stats) (typed : Except JsError DirWatcherStats)
    (h : upToDate cache filePath stat ∨ ∃ ex, typed = .error ex ∧ ex.isAbsence) :
    (tryCatch (afterLstat L s filePath (cache.get filePath) stat typed)).thrown = none ∧
    (tryCatch (afterLstat L s filePath (cache.get filePath) stat
      typed)).state._newCachedStats = s._newCachedStats ∧
    (tryCatch (afterLstat L s filePath (cache.get filePath) stat
      typed)).state.preChangeLog = s.preChangeLog ∧
    (tryCatch (afterLstat L s filePath (cache.get filePath) stat
      typed)).state._externalStatPropertyPromises = s._externalStatPropertyPromises ∧
    ∀ q, q ∈ (tryCatch (afterLstat L s filePath (cache.get filePath) stat
        typed)).state._unchangedPaths ↔
      (q ∈ s._unchangedPaths ∨ (q = filePath ∧ upToDate cache filePath stat)) := by
  rcases afterLstat_cases L s filePath (cache.get filePath) stat typed with hc | hc | hc
  · obtain ⟨hun, hth, hnew, hpre, hprom, hmem⟩ := hc
    have ht : tryCatch (afterLstat L s filePath (cache.get filePath) stat typed) =
        afterLstat L s filePath (cache.get filePath) stat typed := by
      simp only [tryCatch, hth]
    rw [ht]
    refine ⟨hth, hnew, hpre, hprom, ?_⟩
    intro q
    rw [hmem q]
    constructor
    · rintro (hq | hq)
      · exact Or.inl hq
      · exact Or.inr ⟨hq, hun⟩
    · rintro (hq | hq)
      · exact Or.inl hq
      · exact Or.inr hq.1
  · obtain ⟨hun, ex, htyp, hout⟩ := hc
    have hab : ex.isAbsence := by
      rcases h with h | ⟨ex', hex, hab⟩
      · unfold upToDate at h
        rw [hun] at h
        cases h
      · rw [htyp] at hex
        injection hex with hex
        exact hex ▸ hab
    rw [hout]
    have ht : tryCatch ⟨s, some ex⟩ = ⟨s, none⟩ := by
      simp only [tryCatch]
      exact catchStat_absence s hab
    rw [ht]
    refine ⟨rfl, rfl, rfl, rfl, ?_⟩
    intro q
    constructor
    · exact Or.inl
    · rintro (hq | hq)
      · exact hq
      · have := hq.2
        unfold upToDate at this
        rw [hun] at this
        cases this
  · obtain ⟨hun, r, htyp, -, -, -⟩ := hc
    rcases h with h | ⟨ex, hex, -⟩
    · unfold upToDate at h
      rw [hun] at h
      cases h
    · rw [htyp] at hex
      cases hex

mutual
/-- The second of two walks: over a cache that is up to date for every visited entry, it
throws nothing, announces nothing, registers nothing and leaves no pending record. -/
theorem doStatThing_idle (L : Listener) :
    ∀ (node : FsNode) (w : StatDirWatcher) (filePath : String) (recurse : Bool),
      node.settled (upToDate w.cachedStats) w._recursive filePath recurse →
      (doStatThing L w filePath recurse node).thrown = none ∧
      (doStatThing L w filePath recurse node).state._newCachedStats = w._newCachedStats ∧
      (doStatThing L w filePath recurse node).state.preChangeLog = w.preChangeLog ∧
      (doStatThing L w filePath recurse node).state._externalStatPropertyPromises =
        w._externalStatPropertyPromises ∧
      ∀ q, q ∈ (doStatThing L w filePath recurse node).state._unchangedPaths ↔
        (q ∈ w._unchangedPaths ∨
          node.marked (upToDate w.cachedStats) w._recursive filePath recurse q)
  | .lstatFails ex, w, filePath, recurse => by
    intro h
    rw [doStatThing, catchStat_absence w h]
    exact ⟨rfl, rfl, rfl, rfl, fun q => by simp [FsNode.marked]⟩
  | .entry kind stat, w, filePath, recurse => by
    intro h
    rw [doStatThing]
    exact visit_idle L w w.cachedStats filePath stat _ (Or.inl h)
  | .symlink stat (.ok destination), w, filePath, recurse => by
    intro h
    rw [doStatThing]
    exact visit_idle L w w.cachedStats filePath stat _ (Or.inl h)
  | .symlink stat (.error ex), w, filePath, recurse => by
    intro h
    rw [doStatThing]
    refine visit_idle L w w.cachedStats filePath stat _ ?_
    rcases h with h | h
    · exact Or.inl h
    · exact Or.inr ⟨ex, rfl, h⟩
  | .directoryUnreadable stat ex, w, filePath, recurse => by
    intro h
    rw [doStatThing, catchStat_absence w h]
    exact ⟨rfl, rfl, rfl, rfl, fun q => by simp [FsNode.marked]⟩
  | .directory stat children, w, filePath, recurse => by
    intro h
    rw [FsNode.settled] at h
    rw [doStatThing]
    cases recurse
    · simp only [Bool.false_eq_true, if_false]
      obtain ⟨h1, h2, h3, h4, h5⟩ := visit_idle L w w.cachedStats filePath stat
        (.ok ⟨.dir, stat, some children.names, none, []⟩) (Or.inl h.2)
      refine ⟨h1, h2, h3, h4, ?_⟩
      intro q
      rw [h5 q, FsNode.marked]
      simp
    · simp only [if_true]
      obtain ⟨k1, k2, k3, k4, k5⟩ := statChildren_idle L children w filePath (h.1 rfl)
      simp only [k1]
      obtain ⟨h1, h2, h3, h4, h5⟩ := visit_idle L (statChildren L w filePath children).state
        w.cachedStats filePath stat (.ok ⟨.dir, stat, some children.names, none, []⟩)
        (Or.inl h.2)
      refine ⟨h1, h2.trans k2, h3.trans k3, h4.trans k4, ?_⟩
      intro q
      rw [h5 q, k5 q, FsNode.marked]
      simp only [true_and]
      tauto
theorem statChildren_idle (L : Listener) :
    ∀ (l : FsList) (w : StatDirWatcher) (filePath : String),
      l.settled (upToDate w.cachedStats) w._recursive filePath →
      (statChildren L w filePath l).thrown = none ∧
      (statChildren L w filePath l).state._newCachedStats = w._newCachedStats ∧
      (statChildren L w filePath l).state.preChangeLog = w.preChangeLog ∧
      (statChildren L w filePath l).state._externalStatPropertyPromises =
        w._externalStatPropertyPromises ∧
      ∀ q, q ∈ (statChildren L w filePath l).state._unchangedPaths ↔
        (q ∈ w._unchangedPaths ∨ l.marked (upToDate w.cachedStats) w._recursive filePath q)
  | .nil, w, filePath => by
    intro _
    rw [statChildren]
    exact ⟨rfl, rfl, rfl, rfl, fun q => by simp [FsList.marked]⟩
  | .cons name node rest, w, filePath => by
    intro h
    rw [FsList.settled] at h
    rw [statChildren]
    have hfix := doStatThing_fixed L node w (filePath ++ sep ++ name) w._recursive
    obtain ⟨k1, k2, k3, k4, k5⟩ := doStatThing_idle L node w (filePath ++ sep ++ name)
      w._recursive h.1
    simp only [k1]
    have hrest := statChildren_idle L rest
      (doStatThing L w (filePath ++ sep ++ name) w._recursive node).state filePath
    rw [fixed_recursive hfix, fixed_cache hfix] at hrest
    obtain ⟨h1, h2, h3, h4, h5⟩ := hrest h.2
    refine ⟨h1, h2.trans k2, h3.trans k3, h4.trans k4, ?_⟩
    intro q
    rw [h5 q, k5 q, FsList.marked]
    tauto
end

theorem tick_of_walk_ok {L : Listener} {w : StatDirWatcher} {fs : FsNode}
    (h : (walkPhase L w fs).thrown = none) :
    tick L w fs = commit (walkPhase L w fs).state := by
  simp only [tick, h]

theorem upToDate_of_known (s : StatDirWatcher) (p : String) (stat : Stats)
    (hs : Unassigned "ctime" s._newCachedStats)
    (h : known s.cachedStats s p stat) : upToDate (commitCache s) p stat := by
  unfold upToDate
  rw [commitCache_get]
  unfold known at h
  cases hget : s._newCachedStats.get p with
  | some r =>
    rw [hget] at h
    simp only [isUnchanged, DirWatcherStats.ctimeNumber, hs p r hget]
    exact decide_eq_true h
  | none =>
    rw [hget] at h
    simp only [h.1, if_true]
    exact h.2

/-- Two consecutive ticks over the same tree, the first of them started with an empty
pending generation and an empty unchanged set and run to completion, its listeners
assigning no property named `ctime`, no path visited twice: the second tick emits no
`change` and no `preChange` event, reports no warning and leaves every cache entry as it
was. -/
theorem second_tick_changes_nothing (L1 L2 : Listener) (w : StatDirWatcher) (fs : FsNode)
    (hL1 : spares L1 "ctime")
    (hnew : w._newCachedStats = JsMap.empty) (hunch : w._unchangedPaths = [])
    (hnd : (fs.walked w._recursive w._dir true).Nodup)
    (hdone : (walkPhase L1 w fs).thrown = none) :
    tickEvents L2 (tick L1 w fs) fs = [] ∧
    (tick L2 (tick L1 w fs) fs).preChangeLog = (tick L1 w fs).preChangeLog ∧
    (tick L2 (tick L1 w fs) fs).warnings = (tick L1 w fs).warnings ∧
    ∀ p, (tick L2 (tick L1 w fs) fs).cachedStats.get p =
      (tick L1 w fs).cachedStats.get p := by
  -- the first tick
  obtain ⟨hwalk, hsnew, hsunch⟩ := walkPhase_ok hdone
  have hkept := walkPhase_fixed L1 w fs
  simp only [keptPart, Prod.mk.injEq] at hkept
  obtain ⟨hcache, hdir, hrec, -, -, -⟩ := hkept
  have hfresh : ∀ q ∈ fs.walked (startWalk w)._recursive w._dir true,
      (startWalk w)._newCachedStats.get q = none ∧ q ∉ (startWalk w)._unchangedPaths := by
    intro q _
    simp [startWalk, hnew, hunch, JsMap.get_empty]
  obtain ⟨hset, hcov⟩ := doStatThing_settles L1 fs (startWalk w) w._dir true hnd hfresh hwalk
  have htick1 : tick L1 w fs = commit (walkPhase L1 w fs).state := tick_of_walk_ok hdone
  have hknown : ∀ q stat,
      known (startWalk w).cachedStats (doStatThing L1 (startWalk w) w._dir true fs).state q stat →
      upToDate (commitCache (walkPhase L1 w fs).state) q stat := by
    intro q stat hk
    apply upToDate_of_known
    · rw [hsnew]
      apply doStatThing_unassigned "ctime" L1 hL1
      show Unassigned "ctime" w._newCachedStats
      rw [hnew]
      exact unassigned_empty "ctime"
    · unfold known at hk ⊢
      rw [hsnew, hsunch, hcache]
      exact hk
  have hset2 : fs.settled (upToDate (startWalk (tick L1 w fs)).cachedStats)
      (startWalk (tick L1 w fs))._recursive (tick L1 w fs)._dir true := by
    rw [htick1]
    simp only [startWalk, commit, hrec, hdir]
    exact settled_mono _ _ _ fs _ _ (fun q _ stat hk => hknown q stat hk) hset
  -- the second walk
  obtain ⟨i1, i2, i3, i4, i5⟩ := doStatThing_idle L2 fs (startWalk (tick L1 w fs))
    (tick L1 w fs)._dir true hset2
  have i4' : (doStatThing L2 (startWalk (tick L1 w fs)) (tick L1 w fs)._dir true
      fs).state._externalStatPropertyPromises = [] := i4
  have hphase : walkPhase L2 (tick L1 w fs) fs =
      ⟨{ (doStatThing L2 (startWalk (tick L1 w fs)) (tick L1 w fs)._dir true fs).state with
          _ticking := false, _externalStatPropertyPromises := [] }, none⟩ := by
    simp only [walkPhase, i1, i4', awaitAll]
  have hfix2 := doStatThing_fixed L2 fs (startWalk (tick L1 w fs)) (tick L1 w fs)._dir true
  simp only [fixedPart, Prod.mk.injEq] at hfix2
  obtain ⟨f1, -, -, f4, -, f6, -⟩ := hfix2
  have hnew2 : (doStatThing L2 (startWalk (tick L1 w fs)) (tick L1 w fs)._dir true
      fs).state._newCachedStats = JsMap.empty := by
    rw [i2, htick1]
    rfl
  -- every cached path is marked unchanged by the second walk
  have hmarked : ∀ q, (tick L1 w fs).cachedStats.get q ≠ none →
      q ∈ (doStatThing L2 (startWalk (tick L1 w fs)) (tick L1 w fs)._dir true
        fs).state._unchangedPaths := by
    intro q hq
    rw [i5 q]
    right
    have hin : (doStatThing L1 (startWalk w) w._dir true fs).state._newCachedStats.has q = true ∨
        q ∈ (doStatThing L1 (startWalk w) w._dir true fs).state._unchangedPaths := by
      rw [htick1] at hq
      simp only [commit] at hq
      rw [commitCache_get, hsnew, hsunch] at hq
      cases hg : (doStatThing L1 (startWalk w) w._dir true fs).state._newCachedStats.get q with
      | some r => exact Or.inl (by simp [JsMap.has, hg])
      | none =>
        rw [hg] at hq
        by_cases hu : q ∈ (doStatThing L1 (startWalk w) w._dir true fs).state._unchangedPaths
        · exact Or.inr hu
        · simp [hu] at hq
    rcases hcov q hin with h | h
    · simp [startWalk, hnew, hunch, JsMap.has_empty] at h
    · have h2 := marked_mono _ _ _ q fs _ _ (fun p _ stat hk => hknown p stat hk) h
      rw [htick1]
      simp only [startWalk, commit, hrec, hdir]
      exact h2
  have htick2 : tick L2 (tick L1 w fs) fs = commit (walkPhase L2 (tick L1 w fs) fs).state :=
    tick_of_walk_ok (by rw [hphase])
  have hget2 : ∀ p, (commitCache (walkPhase L2 (tick L1 w fs) fs).state).get p =
      (tick L1 w fs).cachedStats.get p := by
    intro p
    rw [commitCache_get, hphase]
    simp only [hnew2, JsMap.get_empty, f1]
    by_cases hu : p ∈ (doStatThing L2 (startWalk (tick L1 w fs)) (tick L1 w fs)._dir true
        fs).state._unchangedPaths
    · simp only [hu, if_true]
      rfl
    · simp only [hu, if_false]
      by_contra hne
      exact hu (hmarked p (fun h => hne (by rw [h])))
  refine ⟨?_, ?_, ?_, ?_⟩
  · have hargs := commitEvents_args (walkPhase L2 (tick L1 w fs) fs).state
    have hempty : (tickEvents L2 (tick L1 w fs) fs).map ChangeEvent.args = [] := by
      simp only [tickEvents, hphase] at hargs ⊢
      rw [hargs]
      simp only [hnew2, f1]
      have hfilter : ((startWalk (tick L1 w fs)).cachedStats.entries.filter
          (fun e => !(decide (e.1 ∈ (doStatThing L2 (startWalk (tick L1 w fs))
            (tick L1 w fs)._dir true fs).state._unchangedPaths)) &&
            !((JsMap.empty : JsMap DirWatcherStats).has e.1))) = [] := by
        rw [List.filter_eq_nil_iff]
        intro e he
        have hk : (tick L1 w fs).cachedStats.get e.1 ≠ none := by
          have hin : (tick L1 w fs).cachedStats.has e.1 = true :=
            (JsMap.has_iff_mem_keys _ _).2 (List.mem_map_of_mem Prod.fst he)
          intro hnone
          simp [JsMap.has, hnone] at hin
        simp [hmarked e.1 hk]
      rw [hfilter]
      simp [JsMap.empty]
    exact List.map_eq_nil_iff.1 hempty
  · rw [htick2, hphase]
    simp only [commit]
    rw [i3]
    rfl
  · rw [htick2, hphase]
    simp only [commit]
    rw [f6]
    rfl
  · intro p
    rw [htick2]
    simp only [commit]
    exact hget2 p

/-! ### Assigned properties -/

/-- An assigned `ctime` replaces the copied one, and the test of line 117 reads it: the
record of `/r/a` that carries the assigned `ctime` 0 is found changed by the next tick over
the same tree, and the record without it is not. -/
theorem assigned_ctime_is_read_by_line_117 :
    isUnchanged (some (fileRecord 1)) (statAt 1) = true ∧
    isUnchanged (some { fileRecord 1 with extra := [("ctime", .num 0)] }) (statAt 1) = false ∧
    isUnchanged (some { fileRecord 1 with extra := [("ctime", .date 3)] }) (statAt 2) = true ∧
    isUnchanged (some { fileRecord 1 with extra := [("ctime", .undefined)] }) (statAt 0) =
      false ∧
    (tick restamping fresh (dirAB 1 1 1)).cachedStats.get "/r/a" =
      some { fileRecord 1 with extra := [("ctime", .num 0)] } ∧
    (tickEvents noListener (tick restamping fresh (dirAB 1 1 1)) (dirAB 1 1 1)).map
        ChangeEvent.args =
      [("/r/a", some { fileRecord 1 with extra := [("ctime", .num 0)] },
        some (fileRecord 1))] ∧
    (tickEvents noListener (tick noListener fresh (dirAB 1 1 1)) (dirAB 1 1 1)).length = 0 := by
  decide

/-! ### Runs after a tick that failed -/

/-- Claim C1, at a failing run: a watcher completes a tick over the files `a` and `b`, its
next tick fails on `b` after `/r/a` was found unchanged, and then `a` is deleted. The tick
that follows completes over `dirB`; its walk reaches `/r` and `/r/b` only, and `/r/a`,
which is cached and not pending, gets no removal event: the one event is that of the root.
After the same history without the failed tick, that tick emits the removal of `/r/a`.
Here the removal is emitted one tick late, by a tick over a tree that did not change. -/
theorem deleted_file_gets_no_removal_event :
    afterBrokenSecondTick._initialized = true ∧
    afterBrokenSecondTick.cachedStats.entries = afterFirstTick.cachedStats.entries ∧
    afterBrokenSecondTick.cachedStats.get "/r/a" = some (fileRecord 1) ∧
    reachablePaths false "/r" dirB = ["/r", "/r/b"] ∧
    (walkPhase noListener afterBrokenSecondTick dirB).thrown = none ∧
    (walkPhase noListener afterBrokenSecondTick dirB).state._newCachedStats.has "/r/a" =
      false ∧
    (tickEvents noListener afterBrokenSecondTick dirB).map ChangeEvent.args =
      [("/r", some (dirRecord 1 ["a", "b"]), some (dirRecord 2 ["b"]))] ∧
    (tickEvents noListener afterFirstTick dirB).map ChangeEvent.args =
      [("/r", some (dirRecord 1 ["a", "b"]), some (dirRecord 2 ["b"])),
        ("/r/a", some (fileRecord 1), none)] ∧
    (tickEvents noListener (tick noListener afterBrokenSecondTick dirB) dirB).map
        ChangeEvent.args =
      [("/r/a", some (fileRecord 1), none)] := by
  decide

/-- Claim C3, at a failing run: a watcher completes a tick over the files `a` and `b`, its
next tick fails on `b` after `/r/a` was found unchanged, and then `a` is deleted. The tick
that follows completes and commits over `dirB`; its walk reaches `/r` and `/r/b` only and
`/r/a` is not pending, yet `/r/a` is still cached afterwards. After the same history
without the failed tick, the cache holds `/r/b` and `/r` only. -/
theorem deleted_file_stays_cached :
    afterBrokenSecondTick.cachedStats.entries = afterFirstTick.cachedStats.entries ∧
    reachablePaths false "/r" dirB = ["/r", "/r/b"] ∧
    (walkPhase noListener afterBrokenSecondTick dirB).thrown = none ∧
    (walkPhase noListener afterBrokenSecondTick dirB).state._newCachedStats.has "/r/a" =
      false ∧
    (tick noListener afterBrokenSecondTick dirB).warnings = afterBrokenSecondTick.warnings ∧
    (tick noListener afterBrokenSecondTick dirB).cachedStats.entries.map Prod.fst =
      ["/r/a", "/r/b", "/r"] ∧
    (tick noListener afterBrokenSecondTick dirB).cachedStats.get "/r/a" =
      some (fileRecord 1) ∧
    (tick noListener afterFirstTick dirB).cachedStats.entries.map Prod.fst =
      ["/r/b", "/r"] := by
  decide

/-- Claim C4, at a failing run: a tick completes over `dirB`, and the next tick over the
same `dirB` emits a `change` event and drops a cache entry. -/
theorem second_tick_over_same_tree_emits_removal :
    afterRecovery._initialized = true ∧
    afterRecovery.cachedStats.keys = ["/r/a", "/r/b", "/r"] ∧
    (tickEvents noListener afterRecovery dirB).map ChangeEvent.args =
      [("/r/a", some (fileRecord 1), none)] ∧
    (tick noListener afterRecovery dirB).cachedStats.keys = ["/r/b", "/r"] := by
  decide

/-- Claim C6, at a failing run: the field `tag` is registered for `/r/a` during the walk of
a tick that installs nothing; the next tick, in which nothing is registered and `/r/a` is
no longer listed, installs and announces a record for `/r/a` that carries `tag`. -/
theorem augmentation_surfaces_in_later_tick :
    (tickEvents tagging afterEmptyTick dirABroken).length = 0 ∧
    afterBrokenTaggedTick.warnings = [eio] ∧
    afterBrokenTaggedTick.cachedStats.get "/r/a" = none ∧
    (tickEvents noListener afterBrokenTaggedTick dirB).map
      (fun e => (e.path, e.old.isSome, e.new.map (fun r => r.extra))) =
      [("/r/a", false, some [("tag", .num 1)]), ("/r/b", false, some []),
        ("/r", true, some [])] ∧
    (tick noListener afterBrokenTaggedTick dirB).cachedStats.get "/r/a" =
      some { fileRecord 1 with extra := [("tag", .num 1)] } := by
  decide

/-- Claim C7, at a failing run: after a tick whose walk threw, no walk is in progress, yet
`addToNewCachedStat` does not throw and registers a task. -/
theorem addToNewCachedStat_accepted_after_failed_walk :
    afterRootFailure.warnings = [eio] ∧
    afterRootFailure._ticking = true ∧
    (match addToNewCachedStat afterRootFailure "/r/a" (.ok [("tag", .num 1)]) with
      | .error _ => none
      | .ok w => some w._externalStatPropertyPromises.length) = some 1 := by
  decide

/-- Claim C10, at a failing run: after a tick that failed, the pending generation and the
unchanged set are not empty, and the next tick commits a record for a path that its own
walk never saw. -/
theorem pending_generation_survives_failed_tick :
    afterBrokenFirstTick.warnings = [eio] ∧
    afterBrokenFirstTick._newCachedStats.keys = ["/r/a"] ∧
    afterBrokenSecondTick._unchangedPaths = ["/r/a"] ∧
    (tick noListener fresh dirB).cachedStats.keys = ["/r/b", "/r"] ∧
    (tick noListener afterBrokenFirstTick dirB).cachedStats.keys = ["/r/a", "/r/b", "/r"] := by
  decide

/-- Claim C9 as written fails: in the second tick of this run the event for `/r/a` is
emitted while `/r/b`, pending in the same tick, is not yet in the cache. -/
theorem change_event_before_last_commit :
    ¬ AllCommittedAtEveryEvent noListener afterEmptyTick (dirAB 2 2 2) := by
  unfold AllCommittedAtEveryEvent
  decide

/-- The amended claim C9 on the second tick of the run above: three events, each emitted
with the pending entries up to its own in the cache. -/
theorem change_event_sees_committed_so_far_witness :
    (tickEvents noListener afterEmptyTick (dirAB 2 2 2)).map (fun e => e.path) =
      ["/r/a", "/r/b", "/r"] ∧
    ∀ e ∈ tickEvents noListener afterEmptyTick (dirAB 2 2 2),
      SeesCommitted (pendingAtCommit noListener afterEmptyTick (dirAB 2 2 2)).entries e :=
  ⟨by decide, (change_event_sees_committed_so_far noListener afterEmptyTick (dirAB 2 2 2)).2⟩

/-- Claim C5 as written fails: no filesystem call fails over `/r` with the files `a` and
`b`, yet after a first tick in which a registered promise rejects the root is not cached. -/
theorem first_tick_aborted_by_rejected_task :
    ¬ CachesReachableAfterFirstTick rejecting "/r" ⟨none, none, none⟩ (dirAB 1 1 1) := by
  intro h
  have hroot := (h (by decide) "/r").2 (by decide)
  revert hroot
  decide

/-- The theorem of claim C5 on the non-recursive watcher of `/r`: over `nested` with no
listener the tick completes, `/r/d/x` is not cached and the record of `/r/d` lists `x`;
over `a` and `b` with the listener `rejecting` the tick is aborted and the cache empty. -/
theorem completed_first_tick_caches_reachable_witness :
    (nested.callsSucceed false true = true ∧ (∀ w p old, noListener w p old = []) ∧
      nested.kindsKnown false true = true ∧
      (tick noListener fresh nested)._initialized = true) ∧
    ((tick noListener fresh nested).cachedStats.has "/r/d/x" = true ↔
      "/r/d/x" ∈ reachablePaths false "/r" nested) ∧
    (∃ r, (tick noListener fresh nested).cachedStats.get ("/r" ++ sep ++ "d") = some r ∧
      r.type = .dir ∧ r.files = some ["x"] ∧
      assocGet "type" r.extra = none ∧ assocGet "files" r.extra = none) ∧
    ((tick rejecting fresh (dirAB 1 1 1))._initialized = false ∧
      (tick rejecting fresh (dirAB 1 1 1)).cachedStats.entries = []) :=
  ⟨⟨by decide, fun _ _ _ => rfl, by decide,
      (completed_first_tick_caches_reachable "/r" ⟨none, none, none⟩ noListener nested
        (by decide)).1 (fun _ _ _ => rfl) (by decide)⟩,
    ((completed_first_tick_caches_reachable "/r" ⟨none, none, none⟩ noListener nested
      (by decide)).2.2 (by decide)).1 "/r/d/x",
    ((completed_first_tick_caches_reachable "/r" ⟨none, none, none⟩ noListener nested
      (by decide)).2.2 (by decide)).2 rfl
      (fun _ _ _ _ _ hc _ => absurd hc (List.not_mem_nil _))
      (fun _ _ _ _ _ hc _ => absurd hc (List.not_mem_nil _))
      (statAt 1) (statAt 1) _ (.cons "x" (.lstatFails eio) .nil) "d" rfl
      (by decide) (List.mem_cons_of_mem _ (List.mem_cons_self _ _)),
    by decide,
    (completed_first_tick_caches_reachable "/r" ⟨none, none, none⟩ rejecting (dirAB 1 1 1)
      (by decide)).2.1 (by decide)⟩

/-- The theorem of claim C8 on the watcher `fresh`: a vanished entry between two listed
files, and a tick over `dirABDenied`, whose one failing call raises `eperm`. -/
theorem absence_is_swallowed_other_failures_abort_witness :
    (FsNode.failsSoftly fresh.cachedStats ("/r" ++ sep ++ "gone") (.lstatFails enoent) ∧
      dirABDenied.hasFatalCall fresh.cachedStats fresh._recursive fresh._dir true = true ∧
      dirABDenied.fatalErrors fresh.cachedStats fresh._recursive fresh._dir true = [eperm] ∧
      dirABDenied.kindsKnown fresh._recursive true = true) ∧
    doStatThing noListener fresh "/r/gone" false (.lstatFails enoent) = ⟨fresh, none⟩ ∧
    statChildren noListener fresh "/r"
        ((FsList.cons "a" (fileAt 1) .nil).append
          (.cons "gone" (.lstatFails enoent) (.cons "b" (fileAt 1) .nil))) =
      statChildren noListener fresh "/r"
        ((FsList.cons "a" (fileAt 1) .nil).append (.cons "b" (fileAt 1) .nil)) ∧
    ((tick noListener fresh dirABDenied).cachedStats = fresh.cachedStats ∧
      (tick noListener fresh dirABDenied).changeLog = fresh.changeLog ∧
      ∃ ex, ex.isFatal ∧
        (tick noListener fresh dirABDenied).warnings = fresh.warnings ++ [ex] ∧
        (ex ∈ dirABDenied.fatalErrors fresh.cachedStats fresh._recursive fresh._dir true ∨
          (ex = untypedError ∧ dirABDenied.kindsKnown fresh._recursive true = false))) :=
  ⟨⟨Or.inl rfl, by decide, by decide, by decide⟩,
    (absence_is_swallowed_other_failures_abort noListener fresh).1 "/r/gone" false _
      (Or.inl rfl),
    (absence_is_swallowed_other_failures_abort noListener fresh).2.1 "/r" "gone" _ _ _
      (Or.inl rfl),
    (absence_is_swallowed_other_failures_abort noListener fresh).2.2 dirABDenied (by decide)⟩

end StatDirWatcher

end StatDir
